import Mathlib

/-!
# TWMailer server: command protocol and spool store

A shallow embedding of `twmailer-server.cpp`: the body of the receive loop of
`clientCommunication` (trailing newline strip, `getline` split, command dispatch) and the
spool functions `createDir`, `writeIntoFile`, `updateIndex`, `listFiles`, `deleteFile`,
`readFile`, over an explicit model of the file system calls they make.

Text is `List Char` (one `Char` per byte).  C `int` values are `Int` with explicit wrap-around
at 32 bits.  A thrown exception that nothing catches ends the process and is the outcome
`Outcome.terminate`; an access outside `buffer` is `Outcome.undefined`.
-/

namespace TWMailer

/-- Text of the program: C strings, `std::string` values, file contents. -/
abbrev Str := List Char

/-- The receive buffer size, `#define BUF 1024`. -/
def BUF : Nat := 1024

/-! ## C and C++ library calls on text -/

/-- What one `recv(socket, buffer, BUF - 1, 0)` returns when the bytes `sent` are available:
at most `BUF - 1` of them. -/
def recv (sent : Str) : Str := sent.take (BUF - 1)

/-- The characters of a `char*` up to its terminating NUL. -/
def cstr (bytes : Str) : Str := bytes.takeWhile (fun c => c ≠ '\x00')

/-- The test `strncmp(a, b, n) == 0` on NUL-free C strings: the first `n` characters agree. -/
def strncmp0 (a b : Str) (n : Nat) : Bool := a.take n == b.take n

/-- One `std::getline(stream, line, LF)`: fails on an exhausted stream, else yields the text up
to the next line feed and the stream behind that line feed. -/
def getline (stream : Str) : Option (Str × Str) :=
  match stream with
  | [] => none
  | _ :: _ => some (stream.takeWhile (fun c => c ≠ '\n'), (stream.dropWhile (fun c => c ≠ '\n')).drop 1)

/-- The loop `while (std::getline(stream, line)) parts.emplace_back(line);` run for at most `fuel`
iterations. -/
def getlinesLoop : Nat → Str → List Str
  | 0, _ => []
  | fuel + 1, stream =>
    match getline stream with
    | none => []
    | some (line, rest) => line :: getlinesLoop fuel rest

/-- All lines of a stream.  Every successful `getline` consumes a character, so `length + 1`
iterations exhaust any stream. -/
def getlines (stream : Str) : List Str := getlinesLoop (stream.length + 1) stream

/-- Largest and smallest `int`. -/
def INT_MAX : Int := 2147483647

def INT_MIN : Int := -2147483648

/-- The statement `index++` on an `int`, wrapping at 32 bits. -/
def incr (i : Int) : Int := if i = INT_MAX then INT_MIN else i + 1

/-- The `int` expression `filenameFound - 1`, wrapping at 32 bits. -/
def decr (i : Int) : Int := if i = INT_MIN then INT_MAX else i - 1

/-- The decimal digit character of `d < 10`. -/
def digitChar (d : Nat) : Char :=
  match d with
  | 0 => '0' | 1 => '1' | 2 => '2' | 3 => '3' | 4 => '4'
  | 5 => '5' | 6 => '6' | 7 => '7' | 8 => '8' | _ => '9'

/-- The value of a decimal digit character. -/
def digitVal (c : Char) : Option Nat :=
  if c = '0' then some 0 else if c = '1' then some 1 else if c = '2' then some 2
  else if c = '3' then some 3 else if c = '4' then some 4 else if c = '5' then some 5
  else if c = '6' then some 6 else if c = '7' then some 7 else if c = '8' then some 8
  else if c = '9' then some 9 else none

/-- Decimal digits of `n` pushed in front of `acc`, most significant first. -/
def natDigits : Nat → Nat → Str → Str
  | 0, _, acc => acc
  | fuel + 1, n, acc =>
    if n < 10 then digitChar n :: acc else natDigits fuel (n / 10) (digitChar (n % 10) :: acc)

/-- The call `std::to_string(int)`: optional minus sign and the decimal digits. -/
def to_string (i : Int) : Str :=
  if i < 0 then '-' :: natDigits (i.natAbs + 1) i.natAbs [] else natDigits (i.natAbs + 1) i.natAbs []

/-- The C locale `isspace`. -/
def isspace (c : Char) : Bool :=
  c = ' ' ∨ c = '\t' ∨ c = '\n' ∨ c = '\x0b' ∨ c = '\x0c' ∨ c = '\r'

/-- Value of the leading run of decimal digits of `s`, continuing from `acc`. -/
def digitsValue : Str → Nat → Nat
  | [], acc => acc
  | c :: rest, acc =>
    match digitVal c with
    | some d => digitsValue rest (10 * acc + d)
    | none => acc

/-- The call `std::stoi(line)`: skips leading white space, takes an optional sign and the
leading digits, ignores what follows.  `none` is a thrown exception: `std::invalid_argument`
when there is no digit, `std::out_of_range` when the value is no `int`. -/
def stoi (line : Str) : Option Int :=
  let s := line.dropWhile isspace
  let negative := s.head? = some '-'
  let body := if s.head? = some '-' ∨ s.head? = some '+' then s.drop 1 else s
  match body with
  | [] => none
  | c :: _ =>
    if (digitVal c).isSome then
      let v : Int := if negative then - (digitsValue body 0 : Int) else (digitsValue body 0 : Int)
      if INT_MIN ≤ v ∧ v ≤ INT_MAX then some v else none
    else none

/-! ## File system model

The store is what `std::filesystem` and the file streams of the program see: a finite table from
resolved paths to nodes.  A resolved path is the list of entry names from the root of the model,
which is also the directory relative paths start from.  An entry name has at most `NAME_MAX`
bytes, as on Linux: looking up a longer name in a directory fails with `ENAMETOOLONG`, on which
the status calls `fs::exists` and `fs::is_directory` throw.  A request has at most `BUF - 1`
bytes, so a whole path comes near the 4096 bytes of `PATH_MAX` only below a spool path of
thousands of bytes; the model takes the spool path to be shorter and puts no limit on the length
of a whole path.  There are no symbolic links, every entry may be read, written and searched,
and space does not run out; directory iteration order is the order of the table. -/

/-- A file system entry: a directory, or a regular file with its content. -/
inductive Node where
  | dir : Node
  | file (content : Str) : Node
  deriving DecidableEq, Repr

/-- A resolved path: entry names from the root. -/
abbrev Path := List Str

/-- The store: the entries other than the root directory, in directory iteration order. -/
abbrev FS := List (Path × Node)

/-- The entry at a resolved path; the root is always a directory. -/
def stat (fs : FS) (p : Path) : Option Node :=
  match p with
  | [] => some Node.dir
  | _ :: _ =>
    match fs.find? (fun e => e.1 = p) with
    | some e => some e.2
    | none => none

/-- Whether a resolved path is a directory. -/
def isDir (fs : FS) (p : Path) : Bool := stat fs p = some Node.dir

/-- Create or replace the entry at `p`: an existing entry keeps its place, a new one goes last. -/
def put : FS → Path → Node → FS
  | [], p, n => [(p, n)]
  | e :: rest, p, n => if e.1 = p then (p, n) :: rest else e :: put rest p n

/-- Remove the entry at `p`. -/
def erase (fs : FS) (p : Path) : FS := fs.filter (fun e => e.1 ≠ p)

/-- The name under which the entry at `p` appears in directory `d`, when it lies directly in it. -/
def childName (d p : Path) : Option Str :=
  match p.getLast? with
  | some name => if p.dropLast = d then some name else none
  | none => none

/-- The entries directly inside directory `d`, by name, in iteration order. -/
def children (fs : FS) (d : Path) : List (Str × Node) :=
  fs.filterMap (fun e => (childName d e.1).map (fun name => (name, e.2)))

/-- A store is well formed when no path is listed twice, the root is not listed, and every
entry lies in a listed directory. -/
def wellFormed (fs : FS) : Bool :=
  (fs.map (fun e => e.1)).Nodup ∧ ∀ e ∈ fs, e.1 ≠ [] ∧ isDir fs e.1.dropLast

/-- Put `c` in front of the first component. -/
def consFirst (c : Char) : List Str → List Str
  | [] => [[c]]
  | comp :: comps => (c :: comp) :: comps

/-- The components of a path string: the pieces between slashes, empty ones included. -/
def splitPath : Str → List Str
  | [] => [[]]
  | c :: rest => if c = '/' then [] :: splitPath rest else consFirst c (splitPath rest)

/-- One step of path resolution from directory `cur`: the empty component and `.` stay, `..`
goes to the parent, a name goes to that entry. -/
def stepTo (cur : Path) (comp : Str) : Path :=
  if comp = [] ∨ comp = ['.'] then cur
  else if comp = ['.', '.'] then cur.dropLast
  else cur ++ [comp]

/-- The longest entry name a directory takes, in bytes. -/
def NAME_MAX : Nat := 255

/-- Resolution of the components `comps` from `cur`: every component is looked up in a
directory, so `cur` must be one at each step and the component no longer than `NAME_MAX`; the
entry reached last need not exist. -/
def walk (fs : FS) : Path → List Str → Option Path
  | cur, [] => some cur
  | cur, comp :: comps =>
    if isDir fs cur ∧ comp.length ≤ NAME_MAX then walk fs (stepTo cur comp) comps else none

/-- Whether resolution from `cur` fails with `ENAMETOOLONG`: it gets, inside a directory, to a
component longer than `NAME_MAX`. -/
def walkTooLong (fs : FS) : Path → List Str → Bool
  | _, [] => false
  | cur, comp :: comps =>
    if isDir fs cur then
      if NAME_MAX < comp.length then true else walkTooLong fs (stepTo cur comp) comps
    else false

/-- Resolution of a path string; the empty string names nothing. -/
def resolve (fs : FS) (path : Str) : Option Path :=
  match path with
  | [] => none
  | _ :: _ => walk fs [] (splitPath path)

/-- The entry a path string names, if any. -/
def lookup (fs : FS) (path : Str) : Option Node :=
  match resolve fs path with
  | some p => stat fs p
  | none => none

/-- Whether the status of a path string cannot be taken: a name on the way is too long.  A
missing entry or a regular file on the way is no such error, the path then names nothing. -/
def statThrows (fs : FS) (path : Str) : Bool := walkTooLong fs [] (splitPath path)

/-- The call `fs::exists(path)`; `none` when it throws `filesystem_error`. -/
def fsExists (fs : FS) (path : Str) : Option Bool :=
  if statThrows fs path then none else some (lookup fs path).isSome

/-- The call `fs::is_directory(path)`; `none` when it throws `filesystem_error`. -/
def is_directory (fs : FS) (path : Str) : Option Bool :=
  if statThrows fs path then none else some (lookup fs path = some Node.dir)

/-- Directory creation along `comps` from `cur`: a missing entry is created as a directory; a
name longer than `NAME_MAX` or a regular file in the way is an error.  Yields the store and
whether all succeeded. -/
def mkdirs : FS → Path → List Str → FS × Bool
  | fs, _, [] => (fs, true)
  | fs, cur, comp :: comps =>
    if NAME_MAX < comp.length then (fs, false)
    else
      match stat fs (stepTo cur comp) with
      | some Node.dir => mkdirs fs (stepTo cur comp) comps
      | some (Node.file _) => (fs, false)
      | none => mkdirs (put fs (stepTo cur comp) Node.dir) (stepTo cur comp) comps

/-- The call `fs::create_directories(path)`: the store afterwards, and `false` when it throws
(the empty path, a name that is too long, or a regular file where a directory is needed). -/
def create_directories (fs : FS) (path : Str) : FS × Bool :=
  match path with
  | [] => (fs, false)
  | _ :: _ => mkdirs fs [] (splitPath path)

/-- Opening `std::ofstream(path)`: the resolved path of the file when the stream opens, which it
does when the path names a regular file or a free name in a directory. -/
def ofstreamOpen (fs : FS) (path : Str) : Option Path :=
  match resolve fs path with
  | none => none
  | some p =>
    if p ≠ [] ∧ isDir fs p.dropLast ∧ ¬ isDir fs p then some p else none

/-- Opening `std::ifstream(path)`: the bytes the stream will deliver when it opens.  A directory
opens, but every read on it fails, which the program sees as a stream without bytes. -/
def ifstreamOpen (fs : FS) (path : Str) : Option Str :=
  match lookup fs path with
  | some (Node.file content) => some content
  | some Node.dir => some []
  | none => none

/-- The call `fs::remove(path)`: removes a regular file or an empty directory. -/
def fsRemove (fs : FS) (path : Str) : FS :=
  match resolve fs path with
  | none => fs
  | some p =>
    match stat fs p with
    | some (Node.file _) => erase fs p
    | some Node.dir => if p ≠ [] ∧ children fs p = [] then erase fs p else fs
    | none => fs

/-- The entries `fs::directory_iterator(path)` yields. -/
def directory_iterator (fs : FS) (path : Str) : List (Str × Node) :=
  match resolve fs path with
  | some p => children fs p
  | none => []

/-- The call `fs::is_regular_file(entry)`. -/
def is_regular_file (entry : Str × Node) : Bool :=
  match entry.2 with
  | Node.file _ => true
  | Node.dir => false

/-! ## The spool functions -/

/-- The function `updateIndex`: overwrite `filePath` with the decimal `index` and a line feed,
when the file opens. -/
def updateIndex (fs : FS) (filePath : Str) (index : Int) : FS :=
  match ofstreamOpen fs filePath with
  | some p => put fs p (Node.file (to_string index ++ ['\n']))
  | none => fs

/-- The function `createDir`: create the directory and its `index.txt` holding 0; an exception of
`create_directories` is caught and leaves out the counter file. -/
def createDir (fs : FS) (receiverDir : Str) : FS :=
  match create_directories fs receiverDir with
  | (fs1, true) => updateIndex fs1 (receiverDir ++ "/index.txt".toList) 0
  | (fs1, false) => fs1

/-- The index `writeIntoFile` reads: 0 when `index.txt` does not open, else `std::stoi` of its
first line (`none` when that throws). -/
def readIndex (fs : FS) (filePathIndex : Str) : Option Int :=
  match ifstreamOpen fs filePathIndex with
  | none => some 0
  | some content => stoi (content.takeWhile (fun c => c ≠ '\n'))

/-- The text `writeIntoFile` writes into a message file: `parts[1]` to `parts[4]`, each followed
by a line feed. -/
def messageText (parts : List Str) : Str :=
  parts.getD 1 [] ++ ['\n'] ++ (parts.getD 2 [] ++ ['\n']) ++ (parts.getD 3 [] ++ ['\n'])
    ++ (parts.getD 4 [] ++ ['\n'])

/-- The function `writeIntoFile`: read the counter, increment it, write the message file named
after it when that opens, store the counter.  `none` when `std::stoi` throws. -/
def writeIntoFile (fs : FS) (parts : List Str) (receiverDir : Str) : Option FS :=
  let filePathIndex := receiverDir ++ "/index.txt".toList
  match readIndex fs filePathIndex with
  | none => none
  | some index0 =>
    let index := incr index0
    let msgFile := to_string index ++ ".txt".toList
    let filePath := receiverDir ++ "/".toList ++ msgFile
    let fs1 :=
      match ofstreamOpen fs filePath with
      | some p => put fs p (Node.file (messageText parts))
      | none => fs
    some (updateIndex fs1 filePathIndex index)

/-- The function `listFiles`: the `int` count of the regular files, counted up entry by entry,
less one, the word `messages`, then the name of every regular file other than `index.txt`, each
on a line. -/
def listFiles (fs : FS) (directoryPath : Str) : Str :=
  let filenameFound : Int :=
    (directory_iterator fs directoryPath).foldl
      (fun found entry => if is_regular_file entry then incr found else found) 0
  let message := to_string (decr filenameFound) ++ " messages\n".toList
  message ++
    (((directory_iterator fs directoryPath).filter
        (fun entry => is_regular_file entry ∧ entry.1 ≠ "index.txt".toList)).map
      (fun entry => entry.1 ++ ['\n'])).flatten

/-- The regular files a directory holds, as `listFiles` counts them. -/
def regularFiles (fs : FS) (directoryPath : Str) : List (Str × Node) :=
  (directory_iterator fs directoryPath).filter is_regular_file

/-- The names of the regular files of a directory other than `index.txt`, in iteration order. -/
def messageNames (fs : FS) (directoryPath : Str) : List Str :=
  ((regularFiles fs directoryPath).filter (fun entry => entry.1 ≠ "index.txt".toList)).map
    (fun entry => entry.1)

/-- A store whose mailbox `B` holds 2^31 + 1 regular files, one more than an `int` counts. -/
def crowdedStore : FS :=
  (["spool".toList], Node.dir) :: (["spool".toList, "B".toList], Node.dir) ::
    (List.range 2147483649).map
      (fun i : Nat =>
        (["spool".toList, "B".toList, to_string (i : Int) ++ ".txt".toList], Node.file []))

/-- The function `deleteFile`: `fs::remove`, any exception caught. -/
def deleteFile (fs : FS) (pathToFileToDelete : Str) : FS := fsRemove fs pathToFileToDelete

/-- The function `readFile`: `OK` and every line of the file, each followed by a line feed;
`ERR` when the file does not open. -/
def readFile (fs : FS) (pathToFileToRead : Str) : Str :=
  match ifstreamOpen fs pathToFileToRead with
  | some content => "OK\n".toList ++ ((getlines content).map (fun line => line ++ ['\n'])).flatten
  | none => "ERR".toList

/-! ## The receive loop of `clientCommunication` -/

/-- The byte at `buffer[size - 2]`: the byte before the last received one, and for a single
received byte the byte `below` that lies in front of the buffer. -/
def byteBeforeLast (below : Char) (recvd : Str) : Char :=
  match recvd.dropLast.getLast? with
  | some c => c
  | none => below

/-- Lines 210 to 217 and 220: a trailing CR LF or a trailing LF is cut off and the buffer is
terminated there.  `none` when `size` gets negative: one received byte, a line feed, with a
carriage return in front of the buffer; `buffer[size]` is then written outside the array. -/
def stripNewline (below : Char) (recvd : Str) : Option Str :=
  if byteBeforeLast below recvd = '\r' ∧ recvd.getLast? = some '\n' then
    if 2 ≤ recvd.length then some recvd.dropLast.dropLast else none
  else if recvd.getLast? = some '\n' then some recvd.dropLast
  else some recvd

/-- What one loop iteration leaves behind. -/
inductive Outcome where
  | reply (fs : FS) (message : Str) : Outcome
  | terminate (fs : FS) : Outcome
  | undefined : Outcome
  deriving DecidableEq, Repr

/-- Lines 240 and 241: `if(!fs::exists(spoolDirectory)) fs::create_directories(spoolDirectory);`
with the store afterwards, and `false` when one of the two calls throws. -/
def ensureSpool (fs : FS) (spoolDirectory : Str) : FS × Bool :=
  match fsExists fs spoolDirectory with
  | none => (fs, false)
  | some true => (fs, true)
  | some false => create_directories fs spoolDirectory

/-- Lines 243 to 250: the mailbox is made when nothing exists at `receiverDir`, else the message
is written.  An exception of `fs::exists` or of `std::stoi` is caught nowhere. -/
def sendInto (fs : FS) (parts : List Str) (receiverDir : Str) : Outcome :=
  match fsExists fs receiverDir with
  | none => Outcome.terminate fs
  | some false => Outcome.reply (createDir fs receiverDir) "OK".toList
  | some true =>
    match writeIntoFile fs parts receiverDir with
    | some fs2 => Outcome.reply fs2 "OK".toList
    | none => Outcome.terminate fs

/-- Lines 262 to 270: the listing of a directory, `0 messages` for anything else; `true` with
the outcome when `readList` is set. -/
def listInto (fs : FS) (directoryPath : Str) (readList : Bool) : Outcome × Bool :=
  match is_directory fs directoryPath with
  | none => (Outcome.terminate fs, readList)
  | some true => (Outcome.reply fs (listFiles fs directoryPath), true)
  | some false => (Outcome.reply fs "0 messages".toList, readList)

/-- Lines 282 to 289: the file is removed when it exists. -/
def deleteAt (fs : FS) (pathToFileToDelete : Str) : Outcome :=
  match fsExists fs pathToFileToDelete with
  | none => Outcome.terminate fs
  | some true => Outcome.reply (deleteFile fs pathToFileToDelete) "OK".toList
  | some false => Outcome.reply fs "ERR".toList

/-- Lines 301 to 308: the file is read when it exists. -/
def readAt (fs : FS) (pathToFileToRead : Str) : Outcome :=
  match fsExists fs pathToFileToRead with
  | none => Outcome.terminate fs
  | some true => Outcome.reply fs (readFile fs pathToFileToRead)
  | some false => Outcome.reply fs "ERR".toList

/-- Lines 235 to 314: the command dispatch on the terminated `buffer`, given the value of
`readList` when it starts.  Yields the outcome and the value of `readList` at the end.
The message is what `send` transmits, followed by its NUL. -/
def dispatch (spoolDirectory : Str) (fs : FS) (buffer : Str) (readList : Bool) : Outcome × Bool :=
  let parts := getlines buffer
  let counter := parts.length
  if strncmp0 buffer "SEND".toList 4 then
    if counter = 5 then
      let receiverDir := spoolDirectory ++ "/".toList ++ parts.getD 2 []
      if (ensureSpool fs spoolDirectory).2 then
        (sendInto (ensureSpool fs spoolDirectory).1 parts receiverDir, readList)
      else (Outcome.terminate (ensureSpool fs spoolDirectory).1, readList)
    else (Outcome.reply fs "ERR".toList, readList)
  else if strncmp0 buffer "LIST".toList 4 then
    if counter = 2 then
      let directoryPath := spoolDirectory ++ "/".toList ++ parts.getD 1 []
      listInto fs directoryPath readList
    else (Outcome.reply fs "ERR".toList, readList)
  else if strncmp0 buffer "DEL".toList 3 then
    if readList ∧ counter = 3 then
      let pathToFileToDelete :=
        spoolDirectory ++ "/".toList ++ parts.getD 1 [] ++ "/".toList ++ parts.getD 2 [] ++ ".txt".toList
      (deleteAt fs pathToFileToDelete, readList)
    else (Outcome.reply fs "ERR".toList, readList)
  else if strncmp0 buffer "READ".toList 4 then
    if readList ∧ counter = 3 then
      let pathToFileToRead :=
        spoolDirectory ++ "/".toList ++ parts.getD 1 [] ++ "/".toList ++ parts.getD 2 [] ++ ".txt".toList
      (readAt fs pathToFileToRead, readList)
    else (Outcome.reply fs "ERR\n Please open LIST at least one time".toList, readList)
  else (Outcome.reply fs "OK".toList, readList)

/-- The request text of a list of fields: the fields with one line feed between neighbours. -/
def requestText : List Str → Str
  | [] => []
  | [f] => f
  | f :: g :: rest => f ++ '\n' :: requestText (g :: rest)

/-- The fields the loop body parses out of the received bytes: `parts`, whose length is
`counter`.  `none` when the strip is undefined. -/
def parseRequest (below : Char) (recvd : Str) : Option (List Str) :=
  match stripNewline below recvd with
  | some stripped => some (getlines (cstr stripped))
  | none => none

/-- One iteration of the receive loop on the bytes `recvd` of one `recv` (lines 209 to 321):
strip, split and dispatch.  `bool readList = false;` is a declaration of the loop body, so
every iteration starts from `false` and its final value is dropped. -/
def handle (below : Char) (spoolDirectory : Str) (fs : FS) (recvd : Str) : Outcome :=
  match stripNewline below recvd with
  | none => Outcome.undefined
  | some stripped => (dispatch spoolDirectory fs (cstr stripped) false).1

/-- The loop condition `strcmp(buffer, "quit") != 0` after an iteration on `recvd`. -/
def goesOn (below : Char) (recvd : Str) : Bool :=
  match stripNewline below recvd with
  | some stripped => cstr stripped ≠ "quit".toList
  | none => false

/-- The receive loop over the successive results of `recv`, each with the byte found in front of
the buffer: the store at the end and the messages sent.  The loop ends with the input (the
client closes), on an empty `recv`, after `quit`, and when an iteration does not reply. -/
def clientCommunication (spoolDirectory : Str) : FS → List (Char × Str) → Option FS × List Str
  | fs, [] => (some fs, [])
  | fs, (below, recvd) :: later =>
    if recvd = [] then (some fs, [])
    else
      match handle below spoolDirectory fs recvd with
      | Outcome.reply fs1 message =>
        if goesOn below recvd then
          ((clientCommunication spoolDirectory fs1 later).1,
            message :: (clientCommunication spoolDirectory fs1 later).2)
        else (some fs1, [message])
      | Outcome.terminate fs1 => (some fs1, [])
      | Outcome.undefined => (none, [])

/-- The store after the requests `reqs` have been handled one after the other, over any number
of connections; `none` when one of them gets no reply. -/
def serve (spoolDirectory : Str) : FS → List (Char × Str) → Option FS
  | fs, [] => some fs
  | fs, (below, recvd) :: later =>
    match handle below spoolDirectory fs recvd with
    | Outcome.reply fs1 _ => serve spoolDirectory fs1 later
    | Outcome.terminate _ => none
    | Outcome.undefined => none

/-- A name that is one directory entry: not empty, without a slash, neither `.` nor `..`, and
of at most `NAME_MAX` bytes. -/
def plainName (name : Str) : Bool :=
  name ≠ [] ∧ '/' ∉ name ∧ name ≠ ['.'] ∧ name ≠ ['.', '.'] ∧ name.length ≤ NAME_MAX

/-- The fields of a received request when it is a SEND with 5 fields. -/
def sendFields (below : Char) (recvd : Str) : Option (List Str) :=
  match stripNewline below recvd with
  | some stripped =>
    if strncmp0 (cstr stripped) "SEND".toList 4 ∧ (getlines (cstr stripped)).length = 5 then
      some (getlines (cstr stripped))
    else none
  | none => none

/-- Whether a request is a SEND with 5 fields whose receiver is `receiver`. -/
def isSendTo (receiver : Str) (req : Char × Str) : Bool :=
  match sendFields req.1 req.2 with
  | some parts => parts.getD 2 [] = receiver
  | none => false

/-- The SEND requests with 5 fields to `receiver` among `reqs`, in order. -/
def sendsTo (receiver : Str) (reqs : List (Char × Str)) : List (Char × Str) :=
  reqs.filter (isSendTo receiver)

/-- The message text a SEND request carries: its fields 1 to 4, each followed by a line feed. -/
def messageOf (req : Char × Str) : Str :=
  match sendFields req.1 req.2 with
  | some parts => messageText parts
  | none => []

/-- Whether a request, when it is a SEND with 5 fields, names a plain receiver. -/
def plainReceiver (req : Char × Str) : Bool :=
  match sendFields req.1 req.2 with
  | some parts => plainName (parts.getD 2 [])
  | none => true

/-- Whether every component of a path string has at most `NAME_MAX` bytes. -/
def shortNames (path : Str) : Bool := ∀ comp ∈ splitPath path, comp.length ≤ NAME_MAX

/-- Whether a request, when it is a LIST with 2 fields, names a mailbox path of short names. -/
def shortListName (req : Char × Str) : Bool :=
  match stripNewline req.1 req.2 with
  | some stripped =>
    if strncmp0 (cstr stripped) "LIST".toList 4 ∧ (getlines (cstr stripped)).length = 2 then
      shortNames ((getlines (cstr stripped)).getD 1 [])
    else true
  | none => true

/-- The state of mailbox `r` in the spool directory `s` after the SEND requests `sends` to it,
as far as the counter tells: without a SEND nothing exists at or below its path; else it is a
directory whose counter file holds the number of these requests less one (the first request
only made the mailbox), and it holds nothing but the counter file and message files whose ids
lie between 1 and the counter. -/
def MailboxCounts (s : Path) (fs : FS) (r : Str) (sends : List (Char × Str)) : Prop :=
  (sends = [] → ∀ q, stat fs (s ++ r :: q) = none) ∧
  (sends ≠ [] →
    isDir fs (s ++ [r]) = true ∧
    stat fs (s ++ [r, "index.txt".toList]) =
      some (Node.file (to_string ((sends.length : Int) - 1) ++ ['\n'])) ∧
    ∀ name, stat fs (s ++ [r, name]) ≠ none →
      name = "index.txt".toList ∨
        ∃ j : Nat, 1 ≤ j ∧ j < sends.length ∧ name = to_string (j : Int) ++ ".txt".toList)

/-- The invariant of the code as it is, by which the proofs go from one request to the next:
`MailboxCounts`, and message file `j` holds the text of request `j` of `sends`, counted from
0. -/
def MailboxHolds (s : Path) (fs : FS) (r : Str) (sends : List (Char × Str)) : Prop :=
  (sends = [] → ∀ q, stat fs (s ++ r :: q) = none) ∧
  (sends ≠ [] →
    isDir fs (s ++ [r]) = true ∧
    stat fs (s ++ [r, "index.txt".toList]) =
      some (Node.file (to_string ((sends.length : Int) - 1) ++ ['\n'])) ∧
    (∀ name, stat fs (s ++ [r, name]) ≠ none →
      name = "index.txt".toList ∨
        ∃ j : Nat, 1 ≤ j ∧ j < sends.length ∧ name = to_string (j : Int) ++ ".txt".toList) ∧
    ∀ (j : Nat) (req : Char × Str), 1 ≤ j → sends[j]? = some req →
      stat fs (s ++ [r, to_string (j : Int) ++ ".txt".toList]) = some (Node.file (messageOf req)))

/-! ## Lemmas on the file system model -/

theorem find_put_same (fs : FS) (p : Path) (n : Node) :
    (put fs p n).find? (fun e => e.1 = p) = some (p, n) := by
  induction fs with
  | nil => simp [put]
  | cons e rest ih =>
    by_cases h : e.1 = p
    · simp [put, h]
    · simp [put, h, List.find?, ih]

theorem find_put_other (fs : FS) (p q : Path) (n : Node) (h : q ≠ p) :
    (put fs p n).find? (fun e => e.1 = q) = fs.find? (fun e => e.1 = q) := by
  induction fs with
  | nil => simp [put, List.find?, h.symm]
  | cons e rest ih =>
    by_cases h1 : e.1 = p
    · have h2 : ¬ e.1 = q := by rw [h1]; exact fun h3 => h h3.symm
      simp [put, h1, List.find?, h2, h.symm]
    · rw [put, if_neg h1]
      by_cases h2 : e.1 = q
      · simp [List.find?, h2]
      · simp [List.find?, h2, ih]

theorem stat_put_same (fs : FS) (p : Path) (n : Node) (hp : p ≠ []) :
    stat (put fs p n) p = some n := by
  cases p with
  | nil => exact absurd rfl hp
  | cons a as => simp [stat, find_put_same]

theorem stat_put_other (fs : FS) (p q : Path) (n : Node) (h : q ≠ p) :
    stat (put fs p n) q = stat fs q := by
  cases q with
  | nil => simp [stat]
  | cons a as => simp only [stat, find_put_other fs p (a :: as) n h]

theorem find_some_mem (fs : FS) (f : Path × Node → Bool) (e : Path × Node)
    (h : fs.find? f = some e) : e ∈ fs ∧ f e = true := by
  induction fs with
  | nil => simp at h
  | cons x rest ih =>
    simp only [List.find?] at h
    cases hx : f x with
    | true =>
      simp only [hx, Option.some.injEq] at h
      subst h
      exact ⟨by simp, hx⟩
    | false =>
      simp only [hx] at h
      exact ⟨by simp [(ih h).1], (ih h).2⟩

theorem stat_eq_none_iff (fs : FS) (p : Path) :
    stat fs p = none ↔ p ≠ [] ∧ ∀ e ∈ fs, e.1 ≠ p := by
  cases p with
  | nil =>
    constructor
    · intro h; simp [stat] at h
    · rintro ⟨h, _⟩; exact absurd rfl h
  | cons a as =>
    simp only [stat]
    cases h : fs.find? (fun e => e.1 = a :: as) with
    | none =>
      simp only [List.find?_eq_none] at h
      simp only [ne_eq, reduceCtorEq, not_false_eq_true, true_and, true_iff]
      intro e he
      simpa using h e he
    | some e =>
      obtain ⟨hm, hp⟩ := find_some_mem fs _ e h
      simp only [reduceCtorEq, ne_eq, not_false_eq_true, true_and, false_iff, not_forall]
      exact ⟨e, hm, by simpa using hp⟩

theorem put_of_absent (fs : FS) (p : Path) (n : Node) (h : ∀ e ∈ fs, e.1 ≠ p) :
    put fs p n = fs ++ [(p, n)] := by
  induction fs with
  | nil => rfl
  | cons e rest ih =>
    have h1 : e.1 ≠ p := h e (by simp)
    simp [put, h1, ih (fun e he => h e (by simp [he]))]

theorem isDir_put_dir (fs : FS) (p q : Path) (h : isDir fs q = true) :
    isDir (put fs p Node.dir) q = true := by
  by_cases hq : q = p
  · subst hq
    cases q with
    | nil => simp [isDir, stat]
    | cons a as => simp [isDir, stat_put_same]
  · simpa [isDir, stat_put_other fs p q Node.dir hq] using h

theorem isDir_put_file (fs : FS) (p q : Path) (c : Str) (hp : isDir fs p = false)
    (h : isDir fs q = true) : isDir (put fs p (Node.file c)) q = true := by
  have hq : q ≠ p := by rintro rfl; simp [h] at hp
  simpa [isDir, stat_put_other fs p q _ hq] using h

/-! ## Lemmas on path resolution -/

theorem splitPath_ne_nil (s : Str) : splitPath s ≠ [] := by
  cases s with
  | nil => simp [splitPath]
  | cons c rest =>
    simp only [splitPath]
    split
    · simp
    · cases splitPath rest <;> simp [consFirst]

theorem splitPath_append (a b : Str) :
    splitPath (a ++ '/' :: b) = splitPath a ++ splitPath b := by
  induction a with
  | nil => simp [splitPath]
  | cons c rest ih =>
    by_cases hc : c = '/'
    · simp [splitPath, hc, ih]
    · have hne := splitPath_ne_nil rest
      have e1 : ∀ t : Str, splitPath (c :: t) = consFirst c (splitPath t) := by
        intro t; simp [splitPath, hc]
      rw [List.cons_append, e1, e1, ih]
      cases h : splitPath rest with
      | nil => exact absurd h hne
      | cons x xs => simp [consFirst]

theorem splitPath_plain (s : Str) (h : '/' ∉ s) : splitPath s = [s] := by
  induction s with
  | nil => rfl
  | cons c rest ih =>
    have hc : c ≠ '/' := by rintro rfl; simp at h
    have hr : '/' ∉ rest := fun hr => h (by simp [hr])
    simp [splitPath, hc, ih hr, consFirst]

theorem walk_append (fs : FS) (cur : Path) (c1 c2 : List Str) :
    walk fs cur (c1 ++ c2) = (walk fs cur c1).bind (fun p => walk fs p c2) := by
  induction c1 generalizing cur with
  | nil => simp [walk]
  | cons c cs ih =>
    simp only [List.cons_append, walk]
    split
    · exact ih _
    · rfl

theorem walk_mono (fs fs2 : FS) (hmono : ∀ p, isDir fs p = true → isDir fs2 p = true)
    (cur : Path) (comps : List Str) (r : Path) (h : walk fs cur comps = some r) :
    walk fs2 cur comps = some r := by
  induction comps generalizing cur with
  | nil => simpa [walk] using h
  | cons c cs ih =>
    simp only [walk] at h ⊢
    split at h
    · rename_i hd
      rw [if_pos ⟨hmono _ hd.1, hd.2⟩]
      exact ih _ h
    · exact absurd h (by simp)

theorem resolve_mono (fs fs2 : FS) (hmono : ∀ p, isDir fs p = true → isDir fs2 p = true)
    (path : Str) (r : Path) (h : resolve fs path = some r) : resolve fs2 path = some r := by
  cases path with
  | nil => simp [resolve] at h
  | cons c cs => exact walk_mono fs fs2 hmono _ _ r (by simpa [resolve] using h)

/-- A name that is one path component and no special one. -/
theorem stepTo_name (cur : Path) (name : Str) (h1 : name ≠ []) (h2 : name ≠ ['.'])
    (h3 : name ≠ ['.', '.']) : stepTo cur name = cur ++ [name] := by
  simp [stepTo, h1, h2, h3]

theorem resolve_child (fs : FS) (dirPath name : Str) (d : Path)
    (hd : resolve fs dirPath = some d) (hdir : isDir fs d = true)
    (hs : '/' ∉ name) (h1 : name ≠ []) (h2 : name ≠ ['.']) (h3 : name ≠ ['.', '.'])
    (hlen : name.length ≤ NAME_MAX) :
    resolve fs (dirPath ++ '/' :: name) = some (d ++ [name]) := by
  cases dirPath with
  | nil => simp [resolve] at hd
  | cons c cs =>
    have hw : walk fs [] (splitPath (c :: cs)) = some d := by simpa [resolve] using hd
    have : resolve fs ((c :: cs) ++ '/' :: name) = walk fs [] (splitPath ((c :: cs) ++ '/' :: name)) := rfl
    rw [this, splitPath_append, walk_append, hw, splitPath_plain name hs]
    simp [walk, hdir, hlen, stepTo_name d name h1 h2 h3]

theorem resolve_prefix (fs : FS) (dirPath rest : Str) (r : Path) (hne : dirPath ≠ [])
    (h : resolve fs (dirPath ++ '/' :: rest) = some r) :
    ∃ d, resolve fs dirPath = some d ∧ isDir fs d = true ∧ walk fs d (splitPath rest) = some r := by
  cases dirPath with
  | nil => exact absurd rfl hne
  | cons c cs =>
    have hw : walk fs [] (splitPath ((c :: cs) ++ '/' :: rest)) = some r := h
    rw [splitPath_append, walk_append] at hw
    cases hd : walk fs [] (splitPath (c :: cs)) with
    | none => simp [hd] at hw
    | some d =>
      simp only [hd, Option.some_bind] at hw
      refine ⟨d, hd, ?_, hw⟩
      cases hsp : splitPath rest with
      | nil => exact absurd hsp (splitPath_ne_nil rest)
      | cons x xs =>
        rw [hsp] at hw
        simp only [walk] at hw
        by_contra hnd
        simp [hnd] at hw

theorem walkTooLong_append (fs : FS) (cur : Path) (c1 c2 : List Str) (s : Path)
    (h : walk fs cur c1 = some s) :
    walkTooLong fs cur (c1 ++ c2) = walkTooLong fs s c2 := by
  induction c1 generalizing cur with
  | nil =>
    simp only [walk, Option.some.injEq] at h
    rw [h]; rfl
  | cons c cs ih =>
    simp only [walk] at h
    split at h
    · rename_i hd
      simp only [List.cons_append, walkTooLong, hd.1, if_true, Nat.not_lt.2 hd.2, if_false]
      exact ih _ h
    · exact absurd h (by simp)

/-- The status of a path that resolves can be taken. -/
theorem statThrows_of_resolve (fs : FS) (path : Str) (d : Path)
    (h : resolve fs path = some d) : statThrows fs path = false := by
  cases path with
  | nil => simp [resolve] at h
  | cons c cs =>
    have hw : walk fs [] (splitPath (c :: cs)) = some d := by simpa [resolve] using h
    have := walkTooLong_append fs [] (splitPath (c :: cs)) [] d hw
    rw [List.append_nil] at this
    rw [statThrows, this]
    rfl

theorem fsExists_of_resolve (fs : FS) (path : Str) (d : Path)
    (h : resolve fs path = some d) : fsExists fs path = some (stat fs d).isSome := by
  simp only [fsExists, statThrows_of_resolve fs path d h, lookup, h, Bool.false_eq_true,
    if_false]

theorem is_directory_of_resolve (fs : FS) (path : Str) (d : Path)
    (h : resolve fs path = some d) : is_directory fs path = some (isDir fs d) := by
  simp only [is_directory, statThrows_of_resolve fs path d h, lookup, h, Bool.false_eq_true,
    if_false, isDir]

/-- Below a path that resolves, the status call throws when the rest of the path gets to a name
that is too long. -/
theorem statThrows_child (fs : FS) (dirPath rest : Str) (d : Path)
    (hd : resolve fs dirPath = some d) :
    statThrows fs (dirPath ++ '/' :: rest) = walkTooLong fs d (splitPath rest) := by
  cases dirPath with
  | nil => simp [resolve] at hd
  | cons c cs =>
    have hw : walk fs [] (splitPath (c :: cs)) = some d := by simpa [resolve] using hd
    rw [statThrows, splitPath_append, walkTooLong_append fs [] _ _ d hw]

theorem walkTooLong_short (fs : FS) (comps : List Str) (h : ∀ c ∈ comps, c.length ≤ NAME_MAX) :
    ∀ cur, walkTooLong fs cur comps = false := by
  induction comps with
  | nil => intro cur; rfl
  | cons c cs ih =>
    intro cur
    have hc : ¬ NAME_MAX < c.length := Nat.not_lt.2 (h c (by simp))
    simp only [walkTooLong, hc, if_false, ih (fun x hx => h x (by simp [hx])), ite_self]

/-! ## Lemmas on decimal text -/

theorem digitVal_digitChar (d : Nat) (h : d < 10) : digitVal (digitChar d) = some d := by
  interval_cases d <;> decide

/-- The characters `std::to_string` produces for a natural number. -/
theorem natDigits_eq (n : Nat) :
    ∀ fuel acc, n < fuel → natDigits fuel n acc = natDigits (n + 1) n [] ++ acc := by
  induction n using Nat.strong_induction_on with
  | _ n ih =>
    intro fuel acc hf
    obtain ⟨f, rfl⟩ : ∃ f, fuel = f + 1 := ⟨fuel - 1, by omega⟩
    by_cases h10 : n < 10
    · simp [natDigits, h10]
    · have hlt : n / 10 < n := by omega
      simp only [natDigits, h10, if_false]
      rw [ih (n / 10) hlt f _ (by omega), ih (n / 10) hlt n _ hlt]
      simp

theorem natDigits_small (n : Nat) (h : n < 10) : natDigits (n + 1) n [] = [digitChar n] := by
  simp [natDigits, h]

theorem natDigits_step (n : Nat) (h : ¬ n < 10) :
    natDigits (n + 1) n [] = natDigits (n / 10 + 1) (n / 10) [] ++ [digitChar (n % 10)] := by
  have hlt : n / 10 < n := by omega
  simp only [natDigits, h, if_false]
  exact natDigits_eq (n / 10) n _ hlt

theorem natDigits_digits (n : Nat) : ∀ c ∈ natDigits (n + 1) n [], (digitVal c).isSome = true := by
  induction n using Nat.strong_induction_on with
  | _ n ih =>
    intro c hc
    by_cases h10 : n < 10
    · rw [natDigits_small n h10] at hc
      simp only [List.mem_singleton] at hc
      subst hc
      simp [digitVal_digitChar n h10]
    · rw [natDigits_step n h10] at hc
      rcases List.mem_append.1 hc with h | h
      · exact ih (n / 10) (by omega) c h
      · simp only [List.mem_singleton] at h
        subst h
        simp [digitVal_digitChar (n % 10) (by omega)]

theorem natDigits_ne_nil (n : Nat) : natDigits (n + 1) n [] ≠ [] := by
  by_cases h10 : n < 10
  · simp [natDigits_small n h10]
  · simp [natDigits_step n h10]

theorem digitsValue_append (l : Str) (hl : ∀ c ∈ l, (digitVal c).isSome = true) (c : Char)
    (d : Nat) (hc : digitVal c = some d) :
    ∀ acc, digitsValue (l ++ [c]) acc = 10 * digitsValue l acc + d := by
  induction l with
  | nil => intro acc; simp [digitsValue, hc]
  | cons x xs ih =>
    intro acc
    obtain ⟨dx, hdx⟩ := Option.isSome_iff_exists.1 (hl x (by simp))
    simp only [List.cons_append, digitsValue, hdx]
    exact ih (fun c hc => hl c (by simp [hc])) _

theorem digitsValue_natDigits (n : Nat) : digitsValue (natDigits (n + 1) n []) 0 = n := by
  induction n using Nat.strong_induction_on with
  | _ n ih =>
    by_cases h10 : n < 10
    · simp [natDigits_small n h10, digitsValue, digitVal_digitChar n h10]
    · rw [natDigits_step n h10,
        digitsValue_append _ (natDigits_digits (n / 10)) _ _ (digitVal_digitChar (n % 10) (by omega)),
        ih (n / 10) (by omega)]
      omega

theorem isspace_of_digit (c : Char) (h : (digitVal c).isSome = true) : isspace c = false := by
  unfold digitVal at h
  unfold isspace
  split_ifs at h <;> first | (subst_vars; decide) | simp at h

/-- Reading back what `std::to_string` printed: `std::stoi` yields the same `int`. -/
theorem stoi_to_string (i : Int) (hlo : INT_MIN ≤ i) (hhi : i ≤ INT_MAX) :
    stoi (to_string i) = some i := by
  obtain ⟨c, cs, hcs⟩ : ∃ c cs, natDigits (i.natAbs + 1) i.natAbs [] = c :: cs := by
    cases h : natDigits (i.natAbs + 1) i.natAbs [] with
    | nil => exact absurd h (natDigits_ne_nil _)
    | cons c cs => exact ⟨c, cs, rfl⟩
  have hdig := natDigits_digits i.natAbs
  have hval := digitsValue_natDigits i.natAbs
  rw [hcs] at hdig hval
  have hc : (digitVal c).isSome = true := hdig c (by simp)
  have hsp : isspace c = false := isspace_of_digit c hc
  have hminus : c ≠ '-' := by rintro rfl; simp [digitVal] at hc
  have hplus : c ≠ '+' := by rintro rfl; simp [digitVal] at hc
  by_cases hneg : i < 0
  · have habs : (i.natAbs : Int) = -i := by omega
    simp only [to_string, hneg, if_true, hcs, stoi]
    have h1 : List.dropWhile isspace ('-' :: c :: cs) = '-' :: c :: cs := by
      simp [List.dropWhile, isspace]
    simp only [h1, List.head?_cons, true_or, if_true, List.drop_succ_cons, List.drop_zero, hc,
      hval, habs, neg_neg]
    simp [hlo, hhi]
  · have habs : (i.natAbs : Int) = i := by omega
    simp only [to_string, hneg, if_false, hcs, stoi]
    have h1 : List.dropWhile isspace (c :: cs) = c :: cs := by
      simp [List.dropWhile, hsp]
    simp only [h1, List.head?_cons, Option.some.injEq, hminus, hplus, or_self, if_false, hc, hval,
      habs, if_true]
    simp [hlo, hhi]

theorem to_string_chars (i : Int) : ∀ c ∈ to_string i, c = '-' ∨ (digitVal c).isSome = true := by
  intro c hc
  unfold to_string at hc
  split at hc
  · rcases List.mem_cons.1 hc with h | h
    · exact Or.inl h
    · exact Or.inr (natDigits_digits _ c h)
  · exact Or.inr (natDigits_digits _ c hc)

theorem to_string_no_slash (i : Int) : '/' ∉ to_string i := by
  intro h
  rcases to_string_chars i _ h with h | h
  · exact absurd h (by decide)
  · simp [digitVal] at h

theorem to_string_no_newline (i : Int) : '\n' ∉ to_string i := by
  intro h
  rcases to_string_chars i _ h with h | h
  · exact absurd h (by decide)
  · simp [digitVal] at h

theorem to_string_ne_nil (i : Int) : to_string i ≠ [] := by
  unfold to_string
  split
  · simp
  · exact natDigits_ne_nil _

theorem natDigits_length (e : Nat) :
    ∀ n, n < 10 ^ (e + 1) → (natDigits (n + 1) n []).length ≤ e + 1 := by
  induction e with
  | zero =>
    intro n hn
    rw [natDigits_small n (by simpa using hn)]
    simp
  | succ e ih =>
    intro n hn
    by_cases h10 : n < 10
    · rw [natDigits_small n h10]
      simp
    · rw [natDigits_step n h10]
      have hlt : n / 10 < 10 ^ (e + 1) := by
        rw [Nat.div_lt_iff_lt_mul (by norm_num)]
        calc n < 10 ^ (e + 1 + 1) := hn
          _ = 10 ^ (e + 1) * 10 := by ring
      have := ih (n / 10) hlt
      simp only [List.length_append, List.length_singleton]
      omega

/-- An `int` prints in at most 11 characters. -/
theorem to_string_length (i : Int) (hlo : INT_MIN ≤ i) (hhi : i ≤ INT_MAX) :
    (to_string i).length ≤ 11 := by
  have habs : i.natAbs < 10 ^ (9 + 1) := by
    unfold INT_MIN at hlo
    unfold INT_MAX at hhi
    norm_num
    omega
  have := natDigits_length 9 i.natAbs habs
  unfold to_string
  split
  · simp only [List.length_cons]
    omega
  · omega

theorem to_string_injective (i j : Int) (hi : INT_MIN ≤ i ∧ i ≤ INT_MAX)
    (hj : INT_MIN ≤ j ∧ j ≤ INT_MAX) (h : to_string i = to_string j) : i = j := by
  have h1 := stoi_to_string i hi.1 hi.2
  have h2 := stoi_to_string j hj.1 hj.2
  rw [h] at h1
  exact Option.some.inj (h1.symm.trans h2)

/-! ## Lemmas on the spool functions -/

/-- The name of the counter file. -/
theorem indexName_plain : '/' ∉ "index.txt".toList ∧ "index.txt".toList ≠ [] ∧
    "index.txt".toList ≠ ['.'] ∧ "index.txt".toList ≠ ['.', '.'] := by decide

theorem indexName_short : "index.txt".toList.length ≤ NAME_MAX := by decide

theorem msgName_short (i : Int) (hlo : INT_MIN ≤ i) (hhi : i ≤ INT_MAX) :
    (to_string i ++ ".txt".toList).length ≤ NAME_MAX := by
  have := to_string_length i hlo hhi
  have h4 : ".txt".toList.length = 4 := by decide
  simp only [List.length_append, h4]
  unfold NAME_MAX
  omega

theorem msgName_no_slash (i : Int) : '/' ∉ to_string i ++ ".txt".toList := by
  intro h
  rcases List.mem_append.1 h with h | h
  · exact to_string_no_slash i h
  · exact absurd h (by decide)

theorem msgName_length (i : Int) : 5 ≤ (to_string i ++ ".txt".toList).length := by
  have : to_string i ≠ [] := to_string_ne_nil i
  have h1 : 1 ≤ (to_string i).length := by
    cases h : to_string i with
    | nil => exact absurd h this
    | cons c cs => simp
  simp only [List.length_append]
  have : ".txt".toList.length = 4 := by decide
  omega

theorem msgName_plain (i : Int) : to_string i ++ ".txt".toList ≠ [] ∧
    to_string i ++ ".txt".toList ≠ ['.'] ∧ to_string i ++ ".txt".toList ≠ ['.', '.'] := by
  have h := msgName_length i
  refine ⟨?_, ?_, ?_⟩ <;> intro h2 <;> rw [h2] at h <;> simp at h

theorem msgName_ne_index (i : Int) : to_string i ++ ".txt".toList ≠ "index.txt".toList := by
  intro h
  have hmem : 'i' ∈ to_string i ++ ".txt".toList := by rw [h]; decide
  rcases List.mem_append.1 hmem with h1 | h1
  · rcases to_string_chars i _ h1 with h2 | h2
    · exact absurd h2 (by decide)
    · simp [digitVal] at h2
  · exact absurd h1 (by decide)

theorem msgName_injective (i j : Int) (hi : INT_MIN ≤ i ∧ i ≤ INT_MAX)
    (hj : INT_MIN ≤ j ∧ j ≤ INT_MAX)
    (h : to_string i ++ ".txt".toList = to_string j ++ ".txt".toList) : i = j :=
  to_string_injective i j hi hj (List.append_cancel_right h)

theorem lookup_child (fs : FS) (dirPath name : Str) (d : Path)
    (hd : resolve fs dirPath = some d) (hdir : isDir fs d = true)
    (hs : '/' ∉ name) (h1 : name ≠ []) (h2 : name ≠ ['.']) (h3 : name ≠ ['.', '.'])
    (hlen : name.length ≤ NAME_MAX) :
    lookup fs (dirPath ++ '/' :: name) = stat fs (d ++ [name]) := by
  simp [lookup, resolve_child fs dirPath name d hd hdir hs h1 h2 h3 hlen]

theorem ofstreamOpen_child (fs : FS) (dirPath name : Str) (d : Path)
    (hd : resolve fs dirPath = some d) (hdir : isDir fs d = true)
    (hs : '/' ∉ name) (h1 : name ≠ []) (h2 : name ≠ ['.']) (h3 : name ≠ ['.', '.'])
    (hlen : name.length ≤ NAME_MAX)
    (hfree : isDir fs (d ++ [name]) = false) :
    ofstreamOpen fs (dirPath ++ '/' :: name) = some (d ++ [name]) := by
  simp [ofstreamOpen, resolve_child fs dirPath name d hd hdir hs h1 h2 h3 hlen, hdir, hfree]

theorem updateIndex_child (fs : FS) (dirPath : Str) (d : Path) (index : Int)
    (hd : resolve fs dirPath = some d) (hdir : isDir fs d = true)
    (hfree : isDir fs (d ++ ["index.txt".toList]) = false) :
    updateIndex fs (dirPath ++ "/index.txt".toList) index =
      put fs (d ++ ["index.txt".toList]) (Node.file (to_string index ++ ['\n'])) := by
  have h := ofstreamOpen_child fs dirPath "index.txt".toList d hd hdir indexName_plain.1
    indexName_plain.2.1 indexName_plain.2.2.1 indexName_plain.2.2.2 indexName_short hfree
  have e : dirPath ++ "/index.txt".toList = dirPath ++ '/' :: "index.txt".toList := rfl
  rw [updateIndex, e, h]

theorem readIndex_absent (fs : FS) (dirPath : Str) (d : Path)
    (hd : resolve fs dirPath = some d) (hdir : isDir fs d = true)
    (habs : stat fs (d ++ ["index.txt".toList]) = none) :
    readIndex fs (dirPath ++ "/index.txt".toList) = some 0 := by
  have e : dirPath ++ "/index.txt".toList = dirPath ++ '/' :: "index.txt".toList := rfl
  have h := lookup_child fs dirPath "index.txt".toList d hd hdir indexName_plain.1
    indexName_plain.2.1 indexName_plain.2.2.1 indexName_plain.2.2.2 indexName_short
  rw [readIndex, ifstreamOpen, e, h, habs]

theorem readIndex_present (fs : FS) (dirPath : Str) (d : Path) (content : Str) (n : Int)
    (hd : resolve fs dirPath = some d) (hdir : isDir fs d = true)
    (hfile : stat fs (d ++ ["index.txt".toList]) = some (Node.file content))
    (hline : content.takeWhile (fun c => c ≠ '\n') = to_string n)
    (hlo : INT_MIN ≤ n) (hhi : n ≤ INT_MAX) :
    readIndex fs (dirPath ++ "/index.txt".toList) = some n := by
  have e : dirPath ++ "/index.txt".toList = dirPath ++ '/' :: "index.txt".toList := rfl
  have h := lookup_child fs dirPath "index.txt".toList d hd hdir indexName_plain.1
    indexName_plain.2.1 indexName_plain.2.2.1 indexName_plain.2.2.2 indexName_short
  rw [readIndex, ifstreamOpen, e, h, hfile]
  simp only [hline]
  exact stoi_to_string n hlo hhi

/-- What `writeIntoFile` does in a mailbox directory whose counter reads `n` below the largest
`int` and whose next message name is not taken by a directory. -/
theorem writeIntoFile_spec (fs : FS) (parts : List Str) (receiverDir : Str) (d : Path) (n : Int)
    (hd : resolve fs receiverDir = some d) (hdir : isDir fs d = true)
    (hidx : readIndex fs (receiverDir ++ "/index.txt".toList) = some n)
    (hidxfree : isDir fs (d ++ ["index.txt".toList]) = false)
    (hlo : INT_MIN ≤ n) (hn : n < INT_MAX)
    (hfree : isDir fs (d ++ [to_string (n + 1) ++ ".txt".toList]) = false) :
    writeIntoFile fs parts receiverDir =
      some (put (put fs (d ++ [to_string (n + 1) ++ ".txt".toList]) (Node.file (messageText parts)))
        (d ++ ["index.txt".toList]) (Node.file (to_string (n + 1) ++ ['\n']))) := by
  have hincr : incr n = n + 1 := by
    have : n ≠ INT_MAX := by omega
    simp [incr, this]
  have hname := msgName_plain (n + 1)
  have e : receiverDir ++ "/".toList ++ (to_string (n + 1) ++ ".txt".toList) =
      receiverDir ++ '/' :: (to_string (n + 1) ++ ".txt".toList) := by
    simp
  have hopen := ofstreamOpen_child fs receiverDir _ d hd hdir (msgName_no_slash (n + 1))
    hname.1 hname.2.1 hname.2.2
    (msgName_short (n + 1) (by unfold INT_MIN at *; omega) (by omega)) hfree
  have hmono : ∀ p, isDir fs p = true →
      isDir (put fs (d ++ [to_string (n + 1) ++ ".txt".toList]) (Node.file (messageText parts))) p
        = true := fun p hp => isDir_put_file fs _ p _ hfree hp
  have hd1 := resolve_mono fs _ hmono receiverDir d hd
  have hne : d ++ ["index.txt".toList] ≠ d ++ [to_string (n + 1) ++ ".txt".toList] := by
    intro h
    have := List.append_cancel_left h
    simp only [List.cons.injEq, and_true] at this
    exact msgName_ne_index (n + 1) this.symm
  have hidxfree1 : isDir (put fs (d ++ [to_string (n + 1) ++ ".txt".toList])
      (Node.file (messageText parts))) (d ++ ["index.txt".toList]) = false := by
    unfold isDir at hidxfree ⊢
    rw [stat_put_other fs _ _ _ hne]
    exact hidxfree
  simp only [writeIntoFile, hidx, hincr, e, hopen]
  rw [updateIndex_child _ receiverDir d (n + 1) hd1 (hmono d hdir) hidxfree1]

theorem wellFormed_iff (fs : FS) : wellFormed fs = true ↔
    (fs.map (fun e => e.1)).Nodup ∧ ∀ e ∈ fs, e.1 ≠ [] ∧ isDir fs e.1.dropLast = true := by
  simp only [wellFormed, decide_eq_true_eq]

/-- In a well formed store an entry lies in a directory. -/
theorem parent_isDir (fs : FS) (hwf : wellFormed fs = true) (d : Path) (name : Str)
    (h : stat fs (d ++ [name]) ≠ none) : isDir fs d = true := by
  have hex : ∃ e ∈ fs, e.1 = d ++ [name] := by
    by_contra hcon
    push_neg at hcon
    exact h ((stat_eq_none_iff fs _).2 ⟨by simp, hcon⟩)
  obtain ⟨e, he, hp⟩ := hex
  have := ((wellFormed_iff fs).1 hwf).2 e he
  rw [hp, List.dropLast_concat] at this
  exact this.2

theorem stat_child_none (fs : FS) (hwf : wellFormed fs = true) (d : Path) (name : Str)
    (h : stat fs d = none) : stat fs (d ++ [name]) = none := by
  by_contra hcon
  have := parent_isDir fs hwf d name hcon
  simp [isDir, h] at this

theorem children_nil_of_absent (fs : FS) (hwf : wellFormed fs = true) (d : Path)
    (h : stat fs d = none) : children fs d = [] := by
  unfold children
  rw [List.filterMap_eq_nil_iff]
  intro e he
  have hwf2 := ((wellFormed_iff fs).1 hwf).2 e he
  simp only [childName]
  cases hl : e.1.getLast? with
  | none => rfl
  | some name =>
    simp only
    by_cases hd : e.1.dropLast = d
    · rw [hd] at hwf2
      simp [isDir, h] at hwf2
    · simp [hd]

theorem children_append (fs fs2 : FS) (d : Path) :
    children (fs ++ fs2) d = children fs d ++ children fs2 d := by
  simp [children, List.filterMap_append]

theorem children_single_same (d : Path) (name : Str) (n : Node) :
    children [(d ++ [name], n)] d = [(name, n)] := by
  simp [children, List.filterMap, childName]

theorem children_single_other (p d : Path) (n : Node) (h : p.dropLast ≠ d) :
    children [(p, n)] d = [] := by
  simp only [children, List.filterMap, childName]
  cases p.getLast? <;> simp [h]

/-- Directory creation along a path that resolves to a free name creates that one directory. -/
theorem mkdirs_free (fs : FS) (comps : List Str) (cur d : Path) (hne : comps ≠ [])
    (hw : walk fs cur comps = some d) (hfree : stat fs d = none) :
    mkdirs fs cur comps = (put fs d Node.dir, true) := by
  induction comps generalizing cur with
  | nil => exact absurd rfl hne
  | cons c cs ih =>
    simp only [walk] at hw
    split at hw
    · rename_i hstep
      have hlen : ¬ NAME_MAX < c.length := Nat.not_lt.2 hstep.2
      cases cs with
      | nil =>
        simp only [walk, Option.some.injEq] at hw
        simp [mkdirs, hw, hfree, hlen]
      | cons c2 cs2 =>
        have hw2 := hw
        simp only [walk] at hw2
        split at hw2
        · rename_i hdir2
          have hs : stat fs (stepTo cur c) = some Node.dir := by simpa [isDir] using hdir2.1
          simp only [mkdirs, hs, hlen, if_false]
          exact ih (stepTo cur c) (by simp) hw
        · exact absurd hw2 (by simp)
    · exact absurd hw (by simp)

theorem create_directories_free (fs : FS) (path : Str) (d : Path)
    (hd : resolve fs path = some d) (hfree : stat fs d = none) :
    create_directories fs path = (put fs d Node.dir, true) := by
  cases path with
  | nil => simp [resolve] at hd
  | cons c cs =>
    exact mkdirs_free fs _ [] d (splitPath_ne_nil _) (by simpa [resolve] using hd) hfree

/-- What `createDir` does for a path that resolves to a free name with no `index.txt` below. -/
theorem createDir_put (fs : FS) (receiverDir : Str) (d : Path)
    (hd : resolve fs receiverDir = some d) (hfree : stat fs d = none)
    (hidx0 : stat fs (d ++ ["index.txt".toList]) = none) :
    createDir fs receiverDir =
      put (put fs d Node.dir) (d ++ ["index.txt".toList]) (Node.file (to_string 0 ++ ['\n'])) := by
  have hdne : d ≠ [] := by rintro rfl; simp [stat] at hfree
  have hmono : ∀ p, isDir fs p = true → isDir (put fs d Node.dir) p = true :=
    fun p hp => isDir_put_dir fs d p hp
  have hd1 := resolve_mono fs _ hmono receiverDir d hd
  have hdir1 : isDir (put fs d Node.dir) d = true := by
    unfold isDir; rw [stat_put_same fs d _ hdne]; rfl
  have hne : d ++ ["index.txt".toList] ≠ d := by
    intro h
    have := congrArg List.length h
    simp at this
  have hfree1 : isDir (put fs d Node.dir) (d ++ ["index.txt".toList]) = false := by
    unfold isDir; rw [stat_put_other fs d _ _ hne, hidx0]; rfl
  rw [createDir, create_directories_free fs receiverDir d hd hfree]
  simp only
  rw [updateIndex_child _ receiverDir d 0 hd1 hdir1 hfree1]

/-- In a well formed store the two new entries go to the end of the table. -/
theorem createDir_free (fs : FS) (hwf : wellFormed fs = true) (receiverDir : Str) (d : Path)
    (hd : resolve fs receiverDir = some d) (hfree : stat fs d = none) :
    createDir fs receiverDir =
      fs ++ [(d, Node.dir)] ++ [(d ++ ["index.txt".toList], Node.file (to_string 0 ++ ['\n']))] := by
  have habs : ∀ e ∈ fs, e.1 ≠ d := ((stat_eq_none_iff fs d).1 hfree).2
  have hne : d ++ ["index.txt".toList] ≠ d := by
    intro h
    have := congrArg List.length h
    simp at this
  have hidx0 : stat fs (d ++ ["index.txt".toList]) = none := stat_child_none fs hwf d _ hfree
  have hidx1 : stat (put fs d Node.dir) (d ++ ["index.txt".toList]) = none := by
    rw [stat_put_other fs d _ _ hne]; exact hidx0
  rw [createDir_put fs receiverDir d hd hfree hidx0,
    put_of_absent _ _ _ ((stat_eq_none_iff _ _).1 hidx1).2, put_of_absent fs d _ habs]

theorem append_slash (a b : Str) : a ++ "/".toList ++ b = a ++ '/' :: b := by
  simp

theorem ensureSpool_of_resolve (fs : FS) (spool : Str) (s : Path)
    (hs : resolve fs spool = some s) (hsdir : isDir fs s = true) :
    ensureSpool fs spool = (fs, true) := by
  have : stat fs s = some Node.dir := by simpa [isDir] using hsdir
  simp only [ensureSpool, fsExists_of_resolve fs spool s hs, this, Option.isSome_some]

/-- The dispatch of a SEND with 5 fields once the spool root exists or is made. -/
theorem dispatch_SEND (spool : Str) (fs fs1 : FS) (buffer : Str) (readList : Bool)
    (hcmd : strncmp0 buffer "SEND".toList 4 = true) (hcnt : (getlines buffer).length = 5)
    (hmade : ensureSpool fs spool = (fs1, true)) :
    dispatch spool fs buffer readList =
      (sendInto fs1 (getlines buffer) (spool ++ "/".toList ++ (getlines buffer).getD 2 []),
        readList) := by
  simp only [dispatch, hcmd, hcnt, if_true, hmade]

theorem sendInto_existing (fs fs2 : FS) (parts : List Str) (receiverDir : Str) (d : Path)
    (hd : resolve fs receiverDir = some d) (hdir : isDir fs d = true)
    (hw : writeIntoFile fs parts receiverDir = some fs2) :
    sendInto fs parts receiverDir = Outcome.reply fs2 "OK".toList := by
  have : stat fs d = some Node.dir := by simpa [isDir] using hdir
  simp only [sendInto, fsExists_of_resolve fs receiverDir d hd, this, Option.isSome_some, hw]

theorem sendInto_free (fs : FS) (parts : List Str) (receiverDir : Str)
    (hex : fsExists fs receiverDir = some false) :
    sendInto fs parts receiverDir = Outcome.reply (createDir fs receiverDir) "OK".toList := by
  simp only [sendInto, hex]

/-- The dispatch of a SEND with 5 fields whose receiver path is a directory of the store. -/
theorem dispatch_SEND_existing (spool : Str) (fs : FS) (buffer : Str) (readList : Bool) (d : Path)
    (hcmd : strncmp0 buffer "SEND".toList 4 = true) (hcnt : (getlines buffer).length = 5)
    (hspool : spool ≠ [])
    (hd : resolve fs (spool ++ "/".toList ++ (getlines buffer).getD 2 []) = some d)
    (hdir : isDir fs d = true) (fs2 : FS)
    (hw : writeIntoFile fs (getlines buffer) (spool ++ "/".toList ++ (getlines buffer).getD 2 [])
      = some fs2) :
    dispatch spool fs buffer readList = (Outcome.reply fs2 "OK".toList, readList) := by
  have hd2 := hd
  rw [append_slash] at hd2
  obtain ⟨s, hs, hsdir, _⟩ := resolve_prefix fs spool _ d hspool hd2
  rw [dispatch_SEND spool fs fs (buffer) readList hcmd hcnt (ensureSpool_of_resolve fs spool s hs hsdir),
    sendInto_existing fs fs2 _ _ d hd hdir hw]

/-- The dispatch of a SEND with 5 fields whose receiver path resolves to a free name. -/
theorem dispatch_SEND_free (spool : Str) (fs : FS) (buffer : Str) (readList : Bool) (d : Path)
    (hcmd : strncmp0 buffer "SEND".toList 4 = true) (hcnt : (getlines buffer).length = 5)
    (hspool : spool ≠ [])
    (hd : resolve fs (spool ++ "/".toList ++ (getlines buffer).getD 2 []) = some d)
    (hfree : stat fs d = none) :
    dispatch spool fs buffer readList =
      (Outcome.reply (createDir fs (spool ++ "/".toList ++ (getlines buffer).getD 2 [])) "OK".toList,
        readList) := by
  have hd2 := hd
  rw [append_slash] at hd2
  obtain ⟨s, hs, hsdir, _⟩ := resolve_prefix fs spool _ d hspool hd2
  have hex2 : fsExists fs (spool ++ "/".toList ++ (getlines buffer).getD 2 []) = some false := by
    rw [fsExists_of_resolve fs _ d hd, hfree]; rfl
  rw [dispatch_SEND spool fs fs (buffer) readList hcmd hcnt (ensureSpool_of_resolve fs spool s hs hsdir),
    sendInto_free fs _ _ hex2]

/-! ## Lemmas on the request parser -/

theorem takeWhile_append_stop {α} (p : α → Bool) (l : List α) (a : α) (r : List α)
    (hl : ∀ x ∈ l, p x = true) (ha : p a = false) :
    (l ++ a :: r).takeWhile p = l ∧ (l ++ a :: r).dropWhile p = a :: r := by
  induction l with
  | nil => simp [List.takeWhile, List.dropWhile, ha]
  | cons x xs ih =>
    have hx : p x = true := hl x (by simp)
    have := ih (fun y hy => hl y (by simp [hy]))
    simp [List.takeWhile, List.dropWhile, hx, this]

theorem takeWhile_all {α} (p : α → Bool) (l : List α) (hl : ∀ x ∈ l, p x = true) :
    l.takeWhile p = l ∧ l.dropWhile p = [] := by
  induction l with
  | nil => simp
  | cons x xs ih =>
    have hx : p x = true := hl x (by simp)
    have := ih (fun y hy => hl y (by simp [hy]))
    simp [List.takeWhile, List.dropWhile, hx, this]

theorem getlinesLoop_requestText (fields : List Str)
    (hlf : ∀ f ∈ fields, '\n' ∉ f) (hne : fields ≠ [])
    (hlast : fields.getLast hne ≠ []) :
    ∀ fuel, fields.length ≤ fuel → getlinesLoop fuel (requestText fields) = fields := by
  induction fields with
  | nil => exact absurd rfl hne
  | cons f rest ih =>
    intro fuel hfuel
    cases rest with
    | nil =>
      have hf : f ≠ [] := by simpa using hlast
      obtain ⟨n, rfl⟩ : ∃ n, fuel = n + 1 := ⟨fuel - 1, by simp at hfuel; omega⟩
      have hp : ∀ x ∈ f, (fun c : Char => decide (c ≠ '\n')) x = true := by
        intro x hx; have := hlf f (by simp); simp; rintro rfl; exact this hx
      obtain ⟨h1, h2⟩ := takeWhile_all _ f hp
      cases f with
      | nil => exact absurd rfl hf
      | cons c cs =>
        simp only [requestText, getlinesLoop, getline, h1, h2]
        cases n <;> simp [getlinesLoop, getline]
    | cons g rest2 =>
      obtain ⟨n, rfl⟩ : ∃ n, fuel = n + 1 := ⟨fuel - 1, by simp at hfuel; omega⟩
      have hp : ∀ x ∈ f, (fun c : Char => decide (c ≠ '\n')) x = true := by
        intro x hx; have := hlf f (by simp); simp; rintro rfl; exact this hx
      obtain ⟨h1, h2⟩ := takeWhile_append_stop _ f '\n' (requestText (g :: rest2)) hp (by simp)
      have ih2 := ih (fun f hf => hlf f (by simp [hf])) (by simp)
        (by simpa [List.getLast_cons] using hlast) n (by simp at hfuel ⊢; omega)
      have hcons : ∃ c cs, f ++ '\n' :: requestText (g :: rest2) = c :: cs := by
        cases f <;> simp
      obtain ⟨c, cs, hc⟩ := hcons
      simp only [requestText, getlinesLoop]
      rw [show getline (f ++ '\n' :: requestText (g :: rest2)) =
        some (f, requestText (g :: rest2)) by
          simp only [getline, hc]; rw [← hc, h1, h2]; rfl]
      simp [ih2]

theorem stripNewline_crlf (below : Char) (text : Str) :
    stripNewline below (text ++ ['\r', '\n']) = some text := by
  have h1 : (text ++ ['\r', '\n']).getLast? = some '\n' := by simp
  have h2 : (text ++ ['\r', '\n']).dropLast = text ++ ['\r'] := by
    rw [show text ++ ['\r', '\n'] = (text ++ ['\r']) ++ ['\n'] by simp]
    exact List.dropLast_concat
  have h3 : byteBeforeLast below (text ++ ['\r', '\n']) = '\r' := by
    simp [byteBeforeLast, h2]
  simp [stripNewline, h1, h2, h3]

theorem stripNewline_lf (below : Char) (text : Str) (hne : text ≠ [])
    (hcr : text.getLast? ≠ some '\r') :
    stripNewline below (text ++ ['\n']) = some text := by
  have h1 : (text ++ ['\n']).getLast? = some '\n' := by simp
  have h2 : (text ++ ['\n']).dropLast = text := List.dropLast_concat
  have h3 : byteBeforeLast below (text ++ ['\n']) ≠ '\r' := by
    simp only [byteBeforeLast, h2]
    cases h : text.getLast? with
    | none => simp [List.getLast?_eq_none_iff] at h; exact absurd h hne
    | some c => simp only; rintro rfl; exact hcr h
  simp [stripNewline, h1, h2, h3]

theorem stripNewline_plain (below : Char) (text : Str) (hlf : text.getLast? ≠ some '\n') :
    stripNewline below text = some text := by
  simp [stripNewline, hlf]

theorem cstr_eq_self (text : Str) (h : '\x00' ∉ text) : cstr text = text := by
  unfold cstr
  rw [List.takeWhile_eq_self_iff]
  intro x hx
  simp
  rintro rfl
  exact h hx

theorem requestText_split (fields : List Str) (hne : fields ≠ []) :
    ∃ pre, requestText fields = pre ++ fields.getLast hne := by
  induction fields with
  | nil => exact absurd rfl hne
  | cons f rest ih =>
    cases rest with
    | nil => exact ⟨[], by simp [requestText]⟩
    | cons g rest2 =>
      obtain ⟨pre, hpre⟩ := ih (by simp)
      refine ⟨f ++ '\n' :: pre, ?_⟩
      simp only [requestText, hpre, List.getLast_cons (List.cons_ne_nil g rest2)]
      simp

theorem requestText_mem (fields : List Str) (c : Char) (h : c ∈ requestText fields) :
    c = '\n' ∨ ∃ f ∈ fields, c ∈ f := by
  induction fields with
  | nil => simp [requestText] at h
  | cons f rest ih =>
    cases rest with
    | nil => exact Or.inr ⟨f, by simp, by simpa [requestText] using h⟩
    | cons g rest2 =>
      simp only [requestText, List.mem_append, List.mem_cons] at h
      rcases h with h | h | h
      · exact Or.inr ⟨f, by simp, h⟩
      · exact Or.inl h
      · rcases ih h with h2 | ⟨x, hx, hc⟩
        · exact Or.inl h2
        · exact Or.inr ⟨x, by simp [hx], hc⟩

theorem requestText_length (fields : List Str) : fields.length ≤ (requestText fields).length + 1 := by
  induction fields with
  | nil => simp
  | cons f rest ih =>
    cases rest with
    | nil => simp
    | cons g rest2 =>
      simp only [requestText, List.length_cons, List.length_append] at ih ⊢
      omega

theorem getlines_requestText (fields : List Str) (hlf : ∀ f ∈ fields, '\n' ∉ f)
    (hne : fields ≠ []) (hlast : fields.getLast hne ≠ []) :
    getlines (requestText fields) = fields :=
  getlinesLoop_requestText fields hlf hne hlast _ (requestText_length fields)

theorem recv_of_fit (sent : Str) (h : sent.length ≤ BUF - 1) : recv sent = sent := by
  unfold recv
  exact List.take_of_length_le h

/-! ## Lemmas on the command dispatch -/

theorem handle_of_strip {below : Char} {recvd stripped : Str} (spool : Str) (fs : FS)
    (h : stripNewline below recvd = some stripped) :
    handle below spool fs recvd = (dispatch spool fs (cstr stripped) false).1 := by
  simp [handle, h]

theorem strncmp0_DEL {a : Str} (h : strncmp0 a "DEL".toList 3 = true) :
    strncmp0 a "SEND".toList 4 = false ∧ strncmp0 a "LIST".toList 4 = false := by
  rcases a with _ | ⟨c1, _ | ⟨c2, _ | ⟨c3, _ | ⟨c4, r⟩⟩⟩⟩ <;>
    simp_all [strncmp0]

theorem strncmp0_READ {a : Str} (h : strncmp0 a "READ".toList 4 = true) :
    strncmp0 a "SEND".toList 4 = false ∧ strncmp0 a "LIST".toList 4 = false
      ∧ strncmp0 a "DEL".toList 3 = false := by
  rcases a with _ | ⟨c1, _ | ⟨c2, _ | ⟨c3, _ | ⟨c4, r⟩⟩⟩⟩ <;>
    simp_all [strncmp0]

theorem strncmp0_LIST {a : Str} (h : strncmp0 a "LIST".toList 4 = true) :
    strncmp0 a "SEND".toList 4 = false := by
  rcases a with _ | ⟨c1, _ | ⟨c2, _ | ⟨c3, _ | ⟨c4, r⟩⟩⟩⟩ <;>
    simp_all [strncmp0]

theorem dispatch_DEL_false (spool : Str) (fs : FS) (buffer : Str)
    (h : strncmp0 buffer "DEL".toList 3 = true) :
    dispatch spool fs buffer false = (Outcome.reply fs "ERR".toList, false) := by
  obtain ⟨h1, h2⟩ := strncmp0_DEL h
  simp only [dispatch, h, h1, h2, Bool.false_eq_true, if_true, if_false, false_and]

theorem dispatch_READ_false (spool : Str) (fs : FS) (buffer : Str)
    (h : strncmp0 buffer "READ".toList 4 = true) :
    dispatch spool fs buffer false =
      (Outcome.reply fs "ERR\n Please open LIST at least one time".toList, false) := by
  obtain ⟨h1, h2, h3⟩ := strncmp0_READ h
  simp only [dispatch, h, h1, h2, h3, Bool.false_eq_true, if_true, if_false, false_and]

theorem dispatch_unknown (spool : Str) (fs : FS) (buffer : Str) (readList : Bool)
    (h1 : strncmp0 buffer "SEND".toList 4 = false) (h2 : strncmp0 buffer "LIST".toList 4 = false)
    (h3 : strncmp0 buffer "DEL".toList 3 = false) (h4 : strncmp0 buffer "READ".toList 4 = false) :
    dispatch spool fs buffer readList = (Outcome.reply fs "OK".toList, readList) := by
  simp only [dispatch, h1, h2, h3, h4, Bool.false_eq_true, if_true, if_false]

theorem dispatch_SEND_arity (spool : Str) (fs : FS) (buffer : Str) (readList : Bool)
    (h : strncmp0 buffer "SEND".toList 4 = true) (hc : (getlines buffer).length ≠ 5) :
    dispatch spool fs buffer readList = (Outcome.reply fs "ERR".toList, readList) := by
  simp only [dispatch, h, hc, if_true, if_false]

theorem dispatch_LIST_arity (spool : Str) (fs : FS) (buffer : Str) (readList : Bool)
    (h : strncmp0 buffer "LIST".toList 4 = true) (hc : (getlines buffer).length ≠ 2) :
    dispatch spool fs buffer readList = (Outcome.reply fs "ERR".toList, readList) := by
  simp only [dispatch, h, strncmp0_LIST h, hc, Bool.false_eq_true, if_true, if_false]

/-! ## The claims on requests that change nothing -/

/-- C2: a READ or DEL request that is handled while no LIST has succeeded on the connection gets
the precondition failure response, `ERR` for DEL and `ERR` with the note to open LIST for READ,
with no file content, and the store stays as it was; this holds for every store, every mailbox
and every message id, whether or not the message file exists.  The flag `readList` is `false`
when an iteration starts, which is the state of a connection without a LIST. -/
theorem C2_read_del_refused (below : Char) (spool : Str) (fs : FS) (recvd stripped : Str)
    (hs : stripNewline below recvd = some stripped) :
    (strncmp0 (cstr stripped) "DEL".toList 3 = true →
      handle below spool fs recvd = Outcome.reply fs "ERR".toList) ∧
    (strncmp0 (cstr stripped) "READ".toList 4 = true →
      handle below spool fs recvd =
        Outcome.reply fs "ERR\n Please open LIST at least one time".toList) := by
  refine ⟨fun h => ?_, fun h => ?_⟩
  · rw [handle_of_strip spool fs hs, dispatch_DEL_false spool fs _ h]
  · rw [handle_of_strip spool fs hs, dispatch_READ_false spool fs _ h]

/-- A READ of an existing message file and a DEL of it, both refused. -/
theorem C2_read_del_refused_witness :
    handle 'x' "spool".toList
        [(["spool".toList], Node.dir), (["spool".toList, "Bob".toList], Node.dir),
          (["spool".toList, "Bob".toList, "1.txt".toList], Node.file "A\nBob\nS\nB\n".toList)]
        "READ\nBob\n1".toList =
      Outcome.reply
        [(["spool".toList], Node.dir), (["spool".toList, "Bob".toList], Node.dir),
          (["spool".toList, "Bob".toList, "1.txt".toList], Node.file "A\nBob\nS\nB\n".toList)]
        "ERR\n Please open LIST at least one time".toList :=
  (C2_read_del_refused 'x' "spool".toList _ "READ\nBob\n1".toList "READ\nBob\n1".toList
    (by decide)).2 (by decide)

/-- C8 (as stated, refuted): the request `quit` begins with none of the four prefixes and is
answered `OK`, not `ERR`; so is the empty request. -/
theorem C8_unknown_not_ERR :
    strncmp0 (cstr "quit".toList) "SEND".toList 4 = false ∧
    strncmp0 (cstr "quit".toList) "LIST".toList 4 = false ∧
    strncmp0 (cstr "quit".toList) "DEL".toList 3 = false ∧
    strncmp0 (cstr "quit".toList) "READ".toList 4 = false ∧
    handle 'x' "spool".toList [] "quit".toList = Outcome.reply [] "OK".toList ∧
    handle 'x' "spool".toList [] "quit".toList ≠ Outcome.reply [] "ERR".toList ∧
    handle 'x' "spool".toList [] "\r\n".toList = Outcome.reply [] "OK".toList := by
  decide

/-- C8 (amended): a request whose text begins with none of `SEND`, `LIST`, `DEL`, `READ`, the
empty request and `quit` among them, is answered `OK` and leaves the store unchanged. -/
theorem C8_unknown_command_OK (below : Char) (spool : Str) (fs : FS) (recvd stripped : Str)
    (hs : stripNewline below recvd = some stripped)
    (h1 : strncmp0 (cstr stripped) "SEND".toList 4 = false)
    (h2 : strncmp0 (cstr stripped) "LIST".toList 4 = false)
    (h3 : strncmp0 (cstr stripped) "DEL".toList 3 = false)
    (h4 : strncmp0 (cstr stripped) "READ".toList 4 = false) :
    handle below spool fs recvd = Outcome.reply fs "OK".toList := by
  rw [handle_of_strip spool fs hs, dispatch_unknown spool fs _ false h1 h2 h3 h4]

/-- An unknown command with an argument line. -/
theorem C8_unknown_command_OK_witness :
    handle 'x' "spool".toList [(["spool".toList], Node.dir)] "HELP\nme\n".toList =
      Outcome.reply [(["spool".toList], Node.dir)] "OK".toList :=
  C8_unknown_command_OK 'x' "spool".toList _ "HELP\nme\n".toList "HELP\nme".toList
    (by decide) (by decide) (by decide) (by decide) (by decide)

/-- C9: a request recognised as SEND, LIST, DEL or READ whose number of fields is not 5, 2, 3
and 3 is answered with a text that starts with `ERR` (exactly `ERR` for SEND, LIST and DEL) and
leaves the store unchanged. -/
theorem C9_wrong_field_count (below : Char) (spool : Str) (fs : FS) (recvd stripped : Str)
    (hs : stripNewline below recvd = some stripped) :
    (strncmp0 (cstr stripped) "SEND".toList 4 = true → (getlines (cstr stripped)).length ≠ 5 →
      handle below spool fs recvd = Outcome.reply fs "ERR".toList) ∧
    (strncmp0 (cstr stripped) "LIST".toList 4 = true → (getlines (cstr stripped)).length ≠ 2 →
      handle below spool fs recvd = Outcome.reply fs "ERR".toList) ∧
    (strncmp0 (cstr stripped) "DEL".toList 3 = true → (getlines (cstr stripped)).length ≠ 3 →
      handle below spool fs recvd = Outcome.reply fs "ERR".toList) ∧
    (strncmp0 (cstr stripped) "READ".toList 4 = true → (getlines (cstr stripped)).length ≠ 3 →
      handle below spool fs recvd =
          Outcome.reply fs "ERR\n Please open LIST at least one time".toList ∧
        "ERR".toList <+: "ERR\n Please open LIST at least one time".toList) := by
  refine ⟨fun h hc => ?_, fun h hc => ?_, fun h _ => ?_, fun h _ => ⟨?_, by decide⟩⟩
  · rw [handle_of_strip spool fs hs, dispatch_SEND_arity spool fs _ false h hc]
  · rw [handle_of_strip spool fs hs, dispatch_LIST_arity spool fs _ false h hc]
  · rw [handle_of_strip spool fs hs, dispatch_DEL_false spool fs _ h]
  · rw [handle_of_strip spool fs hs, dispatch_READ_false spool fs _ h]

/-- A SEND with four fields into an existing mailbox. -/
theorem C9_wrong_field_count_witness :
    handle 'x' "spool".toList
        [(["spool".toList], Node.dir), (["spool".toList, "Bob".toList], Node.dir)]
        "SEND\nAlice\nBob\nHi\n".toList =
      Outcome.reply [(["spool".toList], Node.dir), (["spool".toList, "Bob".toList], Node.dir)]
        "ERR".toList :=
  (C9_wrong_field_count 'x' "spool".toList _ "SEND\nAlice\nBob\nHi\n".toList
    "SEND\nAlice\nBob\nHi".toList (by decide)).1 (by decide) (by decide)

/-! ## The parser round trip -/

set_option maxRecDepth 100000 in
/-- C10 (as stated, refuted): a single field of 1024 letters has no line feed, no NUL and no
final carriage return, yet only its first 1023 bytes are received and parsed. -/
theorem C10_long_request_cut :
    parseRequest 'x' (recv (requestText [List.replicate 1024 'a'])) =
        some [List.replicate 1023 'a'] ∧
      parseRequest 'x' (recv (requestText [List.replicate 1024 'a'])) ≠
        some [List.replicate 1024 'a'] := by
  decide

/-- C10 (amended): for a non-empty list of fields without line feed and NUL whose last field is
not empty and does not end in a carriage return, and whose request text with its trailer fits
the `BUF - 1` bytes of one receive: the text, sent as it is, with a trailing CR LF or with a
trailing LF, is parsed into exactly these fields, in order and unchanged, so with as many
fields. -/
theorem C10_parse_roundtrip (below : Char) (fields : List Str) (trailer : Str)
    (hne : fields ≠ []) (hchars : ∀ f ∈ fields, '\n' ∉ f ∧ '\x00' ∉ f)
    (hlast : fields.getLast hne ≠ [])
    (hcr : (fields.getLast hne).getLast? ≠ some '\r')
    (htrailer : trailer = [] ∨ trailer = ['\r', '\n'] ∨ trailer = ['\n'])
    (hfit : (requestText fields ++ trailer).length ≤ BUF - 1) :
    parseRequest below (recv (requestText fields ++ trailer)) = some fields ∧
      (parseRequest below (recv (requestText fields ++ trailer))).map List.length =
        some fields.length := by
  obtain ⟨pre, hpre⟩ := requestText_split fields hne
  have hlastq : (requestText fields).getLast? = (fields.getLast hne).getLast? := by
    rw [hpre, List.getLast?_append_of_ne_nil _ hlast]
  have htne : requestText fields ≠ [] := by
    rw [hpre]; simp [hlast]
  have hnolf : (requestText fields).getLast? ≠ some '\n' := by
    rw [hlastq]
    intro h
    exact (hchars _ (List.getLast_mem hne)).1 (List.mem_of_getLast?_eq_some h)
  have hnul : '\x00' ∉ requestText fields := by
    intro h
    rcases requestText_mem fields _ h with h | ⟨f, hf, hc⟩
    · exact absurd h (by decide)
    · exact (hchars f hf).2 hc
  have hstrip : stripNewline below (requestText fields ++ trailer) = some (requestText fields) := by
    rcases htrailer with h | h | h
    · rw [h, List.append_nil]; exact stripNewline_plain below _ hnolf
    · rw [h]; exact stripNewline_crlf below _
    · rw [h]; exact stripNewline_lf below _ htne (by rw [hlastq]; exact hcr)
  have hparse : parseRequest below (recv (requestText fields ++ trailer)) = some fields := by
    rw [recv_of_fit _ hfit, parseRequest, hstrip]
    simp only [cstr_eq_self _ hnul]
    rw [getlines_requestText fields (fun f hf => (hchars f hf).1) hne hlast]
  exact ⟨hparse, by rw [hparse]; rfl⟩

/-- The request `LIST` for `Bob`, sent with a trailing CR LF. -/
theorem C10_parse_roundtrip_witness :
    parseRequest 'x' (recv (requestText ["LIST".toList, "Bob".toList] ++ ['\r', '\n'])) =
        some ["LIST".toList, "Bob".toList] ∧
      (parseRequest 'x' (recv (requestText ["LIST".toList, "Bob".toList] ++ ['\r', '\n']))).map
        List.length = some 2 :=
  C10_parse_roundtrip 'x' ["LIST".toList, "Bob".toList] ['\r', '\n'] (by decide) (by decide)
    (by decide) (by decide) (by decide) (by decide)

/-! ## SEND into an existing mailbox -/

/-- The core of C3 on the dispatch: a SEND with 5 fields into a directory whose counter reads
`n`. -/
theorem dispatch_SEND_write (spool : Str) (fs : FS) (buffer : Str) (readList : Bool) (d : Path)
    (n : Int)
    (hcmd : strncmp0 buffer "SEND".toList 4 = true) (hcnt : (getlines buffer).length = 5)
    (hspool : spool ≠ [])
    (hd : resolve fs (spool ++ "/".toList ++ (getlines buffer).getD 2 []) = some d)
    (hdir : isDir fs d = true)
    (hidx : (stat fs (d ++ ["index.txt".toList]) = none ∧ n = 0) ∨
      ∃ content, stat fs (d ++ ["index.txt".toList]) = some (Node.file content) ∧
        content.takeWhile (fun c => c ≠ '\n') = to_string n)
    (hlo : INT_MIN ≤ n) (hhi : n < INT_MAX)
    (hfree : isDir fs (d ++ [to_string (n + 1) ++ ".txt".toList]) = false) :
    dispatch spool fs buffer readList =
      (Outcome.reply
        (put (put fs (d ++ [to_string (n + 1) ++ ".txt".toList])
            (Node.file (messageText (getlines buffer))))
          (d ++ ["index.txt".toList]) (Node.file (to_string (n + 1) ++ ['\n'])))
        "OK".toList, readList) := by
  have hread : readIndex fs (spool ++ "/".toList ++ (getlines buffer).getD 2 [] ++ "/index.txt".toList)
      = some n := by
    rcases hidx with ⟨habs, h0⟩ | ⟨content, hfile, hline⟩
    · rw [h0]; exact readIndex_absent fs _ d hd hdir habs
    · exact readIndex_present fs _ d content n hd hdir hfile hline hlo (by omega)
  have hidxfree : isDir fs (d ++ ["index.txt".toList]) = false := by
    unfold isDir
    rcases hidx with ⟨habs, _⟩ | ⟨content, hfile, _⟩
    · rw [habs]; rfl
    · rw [hfile]; rfl
  exact dispatch_SEND_existing spool fs buffer readList d hcmd hcnt hspool hd hdir _
    (writeIntoFile_spec fs _ _ d n hd hdir hread hidxfree hlo hhi hfree)

theorem stat_after_write (fs : FS) (d : Path) (msg : Str) (text idx : Str)
    (hne : msg ≠ "index.txt".toList) :
    stat (put (put fs (d ++ [msg]) (Node.file text)) (d ++ ["index.txt".toList]) (Node.file idx))
        (d ++ [msg]) = some (Node.file text) ∧
    stat (put (put fs (d ++ [msg]) (Node.file text)) (d ++ ["index.txt".toList]) (Node.file idx))
        (d ++ ["index.txt".toList]) = some (Node.file idx) ∧
    ∀ p, p ≠ d ++ [msg] → p ≠ d ++ ["index.txt".toList] →
      stat (put (put fs (d ++ [msg]) (Node.file text)) (d ++ ["index.txt".toList]) (Node.file idx)) p
        = stat fs p := by
  have hpne : d ++ [msg] ≠ d ++ ["index.txt".toList] := by
    intro h
    have := List.append_cancel_left h
    simp only [List.cons.injEq, and_true] at this
    exact hne this
  refine ⟨?_, ?_, ?_⟩
  · rw [stat_put_other _ _ _ _ hpne, stat_put_same _ _ _ (by simp)]
  · rw [stat_put_same _ _ _ (by simp)]
  · intro p h1 h2
    rw [stat_put_other _ _ _ _ h2, stat_put_other _ _ _ _ h1]

/-- One loop iteration on a SEND with 5 fields into a directory whose counter reads `n`. -/
theorem handle_SEND_write (below : Char) (spool : Str) (fs : FS) (recvd stripped : Str)
    (cmd sender receiver subject body : Str) (d : Path) (n : Int)
    (hs : stripNewline below recvd = some stripped)
    (hcmd : strncmp0 (cstr stripped) "SEND".toList 4 = true)
    (hparts : getlines (cstr stripped) = [cmd, sender, receiver, subject, body])
    (hspool : spool ≠ [])
    (hd : resolve fs (spool ++ "/".toList ++ receiver) = some d)
    (hdir : isDir fs d = true)
    (hidx : (stat fs (d ++ ["index.txt".toList]) = none ∧ n = 0) ∨
      ∃ content, stat fs (d ++ ["index.txt".toList]) = some (Node.file content) ∧
        content.takeWhile (fun c => c ≠ '\n') = to_string n)
    (hlo : INT_MIN ≤ n) (hhi : n < INT_MAX)
    (hfree : isDir fs (d ++ [to_string (n + 1) ++ ".txt".toList]) = false) :
    ∃ fs2, handle below spool fs recvd = Outcome.reply fs2 "OK".toList ∧
      stat fs2 (d ++ [to_string (n + 1) ++ ".txt".toList]) =
        some (Node.file (sender ++ ['\n'] ++ (receiver ++ ['\n']) ++ (subject ++ ['\n'])
          ++ (body ++ ['\n']))) ∧
      stat fs2 (d ++ ["index.txt".toList]) = some (Node.file (to_string (n + 1) ++ ['\n'])) ∧
      ∀ p, p ≠ d ++ [to_string (n + 1) ++ ".txt".toList] → p ≠ d ++ ["index.txt".toList] →
        stat fs2 p = stat fs p := by
  have hrecv : (getlines (cstr stripped)).getD 2 [] = receiver := by rw [hparts]; rfl
  have hmsg : messageText (getlines (cstr stripped)) =
      sender ++ ['\n'] ++ (receiver ++ ['\n']) ++ (subject ++ ['\n']) ++ (body ++ ['\n']) := by
    rw [hparts]; rfl
  have hdisp := dispatch_SEND_write spool fs (cstr stripped) false d n hcmd
    (by rw [hparts]; rfl) hspool (by rw [hrecv]; exact hd) hdir hidx hlo hhi hfree
  refine ⟨_, by rw [handle_of_strip spool fs hs, hdisp], ?_⟩
  rw [hmsg]
  exact stat_after_write fs d _ _ _ (msgName_ne_index (n + 1))

/-- C3 (amended): a SEND with exactly 5 fields whose receiver path is a directory of the store,
whose counter file holds the decimal integer `n` (or is absent, then `n = 0`) with `n + 1` still
an `int`, and where no directory has the name of message `n + 1`: the response is `OK`; the file
`<n+1>.txt` of the mailbox then holds sender, receiver, subject and body, each followed by a line
feed; `index.txt` holds `n + 1`; every other entry of the store is unchanged. -/
theorem C3_send_existing (below : Char) (spool : Str) (fs : FS) (recvd stripped : Str)
    (cmd sender receiver subject body : Str) (d : Path) (n : Int)
    (hs : stripNewline below recvd = some stripped)
    (hcmd : strncmp0 (cstr stripped) "SEND".toList 4 = true)
    (hparts : getlines (cstr stripped) = [cmd, sender, receiver, subject, body])
    (hspool : spool ≠ [])
    (hd : resolve fs (spool ++ "/".toList ++ receiver) = some d)
    (hdir : isDir fs d = true)
    (hidx : (stat fs (d ++ ["index.txt".toList]) = none ∧ n = 0) ∨
      ∃ content, stat fs (d ++ ["index.txt".toList]) = some (Node.file content) ∧
        content.takeWhile (fun c => c ≠ '\n') = to_string n)
    (hlo : INT_MIN ≤ n) (hhi : n < INT_MAX)
    (hfree : isDir fs (d ++ [to_string (n + 1) ++ ".txt".toList]) = false) :
    ∃ fs2, handle below spool fs recvd = Outcome.reply fs2 "OK".toList ∧
      stat fs2 (d ++ [to_string (n + 1) ++ ".txt".toList]) =
        some (Node.file (sender ++ ['\n'] ++ (receiver ++ ['\n']) ++ (subject ++ ['\n'])
          ++ (body ++ ['\n']))) ∧
      stat fs2 (d ++ ["index.txt".toList]) = some (Node.file (to_string (n + 1) ++ ['\n'])) ∧
      ∀ p, p ≠ d ++ [to_string (n + 1) ++ ".txt".toList] → p ≠ d ++ ["index.txt".toList] →
        stat fs2 p = stat fs p :=
  handle_SEND_write below spool fs recvd stripped cmd sender receiver subject body d n hs hcmd
    hparts hspool hd hdir hidx hlo hhi hfree

/-- A SEND into the mailbox `Bob` whose counter holds 4. -/
theorem C3_send_existing_witness :
    ∃ fs2, handle 'x' "spool".toList
        [(["spool".toList], Node.dir), (["spool".toList, "Bob".toList], Node.dir),
          (["spool".toList, "Bob".toList, "index.txt".toList], Node.file "4\n".toList)]
        "SEND\nAlice\nBob\nHi\nBody text".toList = Outcome.reply fs2 "OK".toList ∧
      stat fs2 (["spool".toList, "Bob".toList] ++ [to_string (4 + 1) ++ ".txt".toList]) =
        some (Node.file ("Alice".toList ++ ['\n'] ++ ("Bob".toList ++ ['\n']) ++
          ("Hi".toList ++ ['\n']) ++ ("Body text".toList ++ ['\n']))) ∧
      stat fs2 (["spool".toList, "Bob".toList] ++ ["index.txt".toList]) =
        some (Node.file (to_string (4 + 1) ++ ['\n'])) ∧
      ∀ p, p ≠ ["spool".toList, "Bob".toList] ++ [to_string (4 + 1) ++ ".txt".toList] →
        p ≠ ["spool".toList, "Bob".toList] ++ ["index.txt".toList] →
        stat fs2 p = stat
          [(["spool".toList], Node.dir), (["spool".toList, "Bob".toList], Node.dir),
            (["spool".toList, "Bob".toList, "index.txt".toList], Node.file "4\n".toList)] p :=
  C3_send_existing 'x' "spool".toList _ "SEND\nAlice\nBob\nHi\nBody text".toList
    "SEND\nAlice\nBob\nHi\nBody text".toList "SEND".toList "Alice".toList "Bob".toList
    "Hi".toList "Body text".toList ["spool".toList, "Bob".toList] 4
    (by decide) (by decide) (by decide) (by decide) (by decide) (by decide)
    (Or.inr ⟨"4\n".toList, by decide, by decide⟩) (by decide) (by decide) (by decide)

/-- C3 (as stated, refuted): with the counter file holding 2147483648 the SEND gets no response,
`std::stoi` throws; with a directory named `1.txt` in a mailbox of counter 0 the response is
`OK` and the counter becomes 1, but no message file is written. -/
theorem C3_counter_out_of_range :
    handle 'x' "spool".toList
        [(["spool".toList], Node.dir), (["spool".toList, "Bob".toList], Node.dir),
          (["spool".toList, "Bob".toList, "index.txt".toList], Node.file "2147483648\n".toList)]
        "SEND\nAlice\nBob\nHi\nBody text".toList =
      Outcome.terminate
        [(["spool".toList], Node.dir), (["spool".toList, "Bob".toList], Node.dir),
          (["spool".toList, "Bob".toList, "index.txt".toList], Node.file "2147483648\n".toList)] ∧
    handle 'x' "spool".toList
        [(["spool".toList], Node.dir), (["spool".toList, "Bob".toList], Node.dir),
          (["spool".toList, "Bob".toList, "index.txt".toList], Node.file "0\n".toList),
          (["spool".toList, "Bob".toList, "1.txt".toList], Node.dir)]
        "SEND\nAlice\nBob\nHi\nBody text".toList =
      Outcome.reply
        [(["spool".toList], Node.dir), (["spool".toList, "Bob".toList], Node.dir),
          (["spool".toList, "Bob".toList, "index.txt".toList], Node.file "1\n".toList),
          (["spool".toList, "Bob".toList, "1.txt".toList], Node.dir)]
        "OK".toList := by
  decide

/-! ## The spool root made by a SEND -/

theorem wellFormed_put_dir (fs : FS) (p : Path) (hwf : wellFormed fs = true)
    (hfree : stat fs p = none) (hpar : isDir fs p.dropLast = true) :
    wellFormed (put fs p Node.dir) = true := by
  obtain ⟨hne, habs⟩ := (stat_eq_none_iff fs p).1 hfree
  obtain ⟨hnd, hall⟩ := (wellFormed_iff fs).1 hwf
  rw [wellFormed_iff]
  constructor
  · rw [put_of_absent fs p _ habs, List.map_append, List.nodup_append]
    refine ⟨hnd, by simp, ?_⟩
    intro a ha hb
    simp only [List.map_cons, List.map_nil, List.mem_singleton] at hb
    obtain ⟨e, he, hea⟩ := List.mem_map.1 ha
    exact habs e he (by rw [hea, hb])
  · intro e he
    rw [put_of_absent fs p _ habs] at he
    rcases List.mem_append.1 he with h | h
    · exact ⟨(hall e h).1, isDir_put_dir fs p _ (hall e h).2⟩
    · simp only [List.mem_singleton] at h
      rw [h]
      exact ⟨hne, isDir_put_dir fs p _ hpar⟩

/-- In a well formed store the parent of a directory is a directory. -/
theorem isDir_dropLast (fs : FS) (hwf : wellFormed fs = true) (p : Path)
    (h : isDir fs p = true) : isDir fs p.dropLast = true := by
  cases p with
  | nil => exact h
  | cons a as =>
    have hne : stat fs (a :: as) ≠ none := by
      intro hn
      simp [isDir, hn] at h
    have hex : ∃ e ∈ fs, e.1 = a :: as := by
      by_contra hcon
      push_neg at hcon
      exact hne ((stat_eq_none_iff fs _).2 ⟨by simp, hcon⟩)
    obtain ⟨e, he, hp⟩ := hex
    have := ((wellFormed_iff fs).1 hwf).2 e he
    rw [hp] at this
    exact this.2

theorem stepTo_parent (fs : FS) (hwf : wellFormed fs = true) (cur : Path) (comp : Str)
    (hcur : isDir fs cur = true) (hfree : stat fs (stepTo cur comp) = none) :
    isDir fs (stepTo cur comp).dropLast = true := by
  unfold stepTo at hfree ⊢
  split_ifs at hfree ⊢ with h1 h2
  · simp [isDir, hfree] at hcur
  · have := isDir_dropLast fs hwf cur hcur
    simp [isDir, hfree] at this
  · rw [List.dropLast_concat]; exact hcur

theorem mkdirs_wellFormed (comps : List Str) :
    ∀ (fs : FS) (cur : Path), wellFormed fs = true → isDir fs cur = true →
      wellFormed (mkdirs fs cur comps).1 = true := by
  induction comps with
  | nil => intro fs cur hwf _; exact hwf
  | cons comp comps ih =>
    intro fs cur hwf hcur
    unfold mkdirs
    by_cases hlen : NAME_MAX < comp.length
    · rw [if_pos hlen]; exact hwf
    · rw [if_neg hlen]
      cases h : stat fs (stepTo cur comp) with
      | none =>
        simp only
        have hne : stepTo cur comp ≠ [] := ((stat_eq_none_iff fs _).1 h).1
        refine ih _ _ (wellFormed_put_dir fs _ hwf h (stepTo_parent fs hwf cur comp hcur h)) ?_
        unfold isDir
        rw [stat_put_same fs _ _ hne]
        rfl
      | some n =>
        cases n with
        | dir =>
          simp only
          exact ih fs _ hwf (by unfold isDir; rw [h]; rfl)
        | file c => exact hwf

theorem create_directories_wellFormed (fs : FS) (path : Str) (hwf : wellFormed fs = true) :
    wellFormed (create_directories fs path).1 = true := by
  cases path with
  | nil => exact hwf
  | cons c cs => exact mkdirs_wellFormed _ fs [] hwf rfl

theorem ensureSpool_wellFormed (spool : Str) (fs fs1 : FS) (hwf : wellFormed fs = true)
    (hmade : ensureSpool fs spool = (fs1, true)) : wellFormed fs1 = true := by
  unfold ensureSpool at hmade
  cases hex : fsExists fs spool with
  | none => rw [hex] at hmade; simp at hmade
  | some b =>
    cases b with
    | true =>
      rw [hex] at hmade
      simp only [Prod.mk.injEq, and_true] at hmade
      rw [← hmade]; exact hwf
    | false =>
      rw [hex] at hmade
      have := create_directories_wellFormed fs spool hwf
      simp only at hmade
      rw [hmade] at this
      exact this

/-- Directory creation that succeeds leaves every entry as it was and makes the path resolve to
a directory. -/
theorem mkdirs_ok (comps : List Str) :
    ∀ (fs fs2 : FS) (cur : Path), isDir fs cur = true → mkdirs fs cur comps = (fs2, true) →
      (∀ p, stat fs p ≠ none → stat fs2 p = stat fs p) ∧
        ∃ d, walk fs2 cur comps = some d ∧ isDir fs2 d = true := by
  induction comps with
  | nil =>
    intro fs fs2 cur hcur h
    simp only [mkdirs, Prod.mk.injEq, and_true] at h
    subst h
    exact ⟨fun _ _ => rfl, cur, rfl, hcur⟩
  | cons comp comps ih =>
    intro fs fs2 cur hcur h
    unfold mkdirs at h
    by_cases hlen : NAME_MAX < comp.length
    · rw [if_pos hlen] at h; simp at h
    · rw [if_neg hlen] at h
      have hle : comp.length ≤ NAME_MAX := Nat.not_lt.1 hlen
      cases hst : stat fs (stepTo cur comp) with
      | none =>
        rw [hst] at h
        simp only at h
        have hne : stepTo cur comp ≠ [] := ((stat_eq_none_iff fs _).1 hst).1
        have hdir1 : isDir (put fs (stepTo cur comp) Node.dir) (stepTo cur comp) = true := by
          unfold isDir; rw [stat_put_same fs _ _ hne]; rfl
        obtain ⟨hframe, d, hw, hd⟩ := ih _ fs2 _ hdir1 h
        have hframe2 : ∀ p, stat fs p ≠ none → stat fs2 p = stat fs p := by
          intro p hp
          have hpne : p ≠ stepTo cur comp := by rintro rfl; exact hp hst
          rw [hframe p (by rw [stat_put_other fs _ p _ hpne]; exact hp),
            stat_put_other fs _ p _ hpne]
        refine ⟨hframe2, d, ?_, hd⟩
        have hcur2 : isDir fs2 cur = true := by
          have h1 : stat fs cur = some Node.dir := by simpa [isDir] using hcur
          unfold isDir
          rw [hframe2 cur (by rw [h1]; simp), h1]; rfl
        simp only [walk, hcur2, hle, and_self, if_true]
        exact hw
      | some n =>
        cases n with
        | file c => rw [hst] at h; simp at h
        | dir =>
          rw [hst] at h
          simp only at h
          have hdir1 : isDir fs (stepTo cur comp) = true := by unfold isDir; rw [hst]; rfl
          obtain ⟨hframe, d, hw, hd⟩ := ih fs fs2 _ hdir1 h
          refine ⟨hframe, d, ?_, hd⟩
          have hcur2 : isDir fs2 cur = true := by
            have h1 : stat fs cur = some Node.dir := by simpa [isDir] using hcur
            unfold isDir
            rw [hframe cur (by rw [h1]; simp), h1]; rfl
          simp only [walk, hcur2, hle, and_self, if_true]
          exact hw

theorem isDir_of_frame (fs fs2 : FS) (hframe : ∀ p, stat fs p ≠ none → stat fs2 p = stat fs p)
    (p : Path) (h : isDir fs p = true) : isDir fs2 p = true := by
  have h1 : stat fs p = some Node.dir := by simpa [isDir] using h
  unfold isDir
  rw [hframe p (by rw [h1]; simp), h1]; rfl

theorem create_directories_ok (fs fs2 : FS) (path : Str)
    (h : create_directories fs path = (fs2, true)) :
    (∀ p, stat fs p ≠ none → stat fs2 p = stat fs p) ∧
      ∃ d, resolve fs2 path = some d ∧ isDir fs2 d = true := by
  cases path with
  | nil => simp [create_directories] at h
  | cons c cs => exact mkdirs_ok _ fs fs2 [] rfl h

/-- Once `ensureSpool` has succeeded the spool path names an entry. -/
theorem ensureSpool_spool (spool : Str) (fs fs1 : FS) (hmade : ensureSpool fs spool = (fs1, true)) :
    ∃ s, resolve fs1 spool = some s ∧ stat fs1 s ≠ none := by
  unfold ensureSpool at hmade
  cases hex : fsExists fs spool with
  | none => rw [hex] at hmade; simp at hmade
  | some b =>
    cases b with
    | true =>
      rw [hex] at hmade
      simp only [Prod.mk.injEq, and_true] at hmade
      subst hmade
      unfold fsExists at hex
      split at hex
      · exact absurd hex (by simp)
      · simp only [Option.some.injEq] at hex
        unfold lookup at hex
        cases hr : resolve fs spool with
        | none => rw [hr] at hex; simp at hex
        | some s =>
          rw [hr] at hex
          refine ⟨s, rfl, ?_⟩
          intro hn
          simp only [hn] at hex
          simp at hex
    | false =>
      rw [hex] at hmade
      simp only at hmade
      obtain ⟨_, d, hd, hdir⟩ := create_directories_ok fs fs1 spool hmade
      refine ⟨d, hd, ?_⟩
      intro hn
      simp [isDir, hn] at hdir

theorem mkdirs_append_existing (fs : FS) (c1 c2 : List Str) :
    ∀ (cur s : Path), walk fs cur c1 = some s → isDir fs s = true →
      mkdirs fs cur (c1 ++ c2) = mkdirs fs s c2 := by
  induction c1 with
  | nil =>
    intro cur s h _
    simp only [walk, Option.some.injEq] at h
    rw [h]; rfl
  | cons c cs ih =>
    intro cur s h hs
    simp only [walk] at h
    split at h
    · rename_i hstep
      have hlen : ¬ NAME_MAX < c.length := Nat.not_lt.2 hstep.2
      have hnext : isDir fs (stepTo cur c) = true := by
        cases cs with
        | nil =>
          simp only [walk, Option.some.injEq] at h
          rw [h]; exact hs
        | cons c3 cs3 =>
          simp only [walk] at h
          by_contra hcon
          simp [hcon] at h
      have hst : stat fs (stepTo cur c) = some Node.dir := by simpa [isDir] using hnext
      simp only [List.cons_append, mkdirs, hlen, if_false, hst]
      exact ih _ s h hs
    · exact absurd h (by simp)

/-! ## Directory creation along a path without `..` -/

theorem stepTo_extends (cur : Path) (comp : Str) (h : comp ≠ ['.', '.']) :
    cur <+: stepTo cur comp := by
  unfold stepTo
  split_ifs
  · exact List.prefix_refl _
  · exact List.prefix_append _ _

theorem walk_prefix (fs : FS) (comps : List Str) :
    ∀ (cur d : Path), ['.', '.'] ∉ comps → walk fs cur comps = some d → cur <+: d := by
  induction comps with
  | nil =>
    intro cur d _ h
    simp only [walk, Option.some.injEq] at h
    rw [h]
  | cons c cs ih =>
    intro cur d hno h
    simp only [walk] at h
    split at h
    · have hc : c ≠ ['.', '.'] := fun e => hno (by simp [e])
      have hcs : ['.', '.'] ∉ cs := fun e => hno (by simp [e])
      exact (stepTo_extends cur c hc).trans (ih _ d hcs h)
    · exact absurd h (by simp)

theorem prefix_exists (fs : FS) (hwf : wellFormed fs = true) (p : Path) (t : List Str) :
    stat fs (p ++ t) ≠ none → stat fs p ≠ none := by
  induction t using List.reverseRecOn with
  | nil => simp
  | append_singleton t x ih =>
    intro h
    apply ih
    have := parent_isDir fs hwf (p ++ t) x (by rwa [List.append_assoc])
    intro hn
    simp [isDir, hn] at this

/-- Directory creation adds entries only on the way to the directory it makes. -/
theorem mkdirs_new (comps : List Str) :
    ∀ (fs fs2 : FS) (cur d : Path), ['.', '.'] ∉ comps → mkdirs fs cur comps = (fs2, true) →
      walk fs2 cur comps = some d → ∀ p, stat fs2 p ≠ none → stat fs p ≠ none ∨ p <+: d := by
  induction comps with
  | nil =>
    intro fs fs2 cur d _ h _ p hp
    simp only [mkdirs, Prod.mk.injEq, and_true] at h
    subst h
    exact Or.inl hp
  | cons c cs ih =>
    intro fs fs2 cur d hno h hw p hp
    have hcs : ['.', '.'] ∉ cs := fun e => hno (by simp [e])
    simp only [walk] at hw
    split at hw
    swap
    · exact absurd hw (by simp)
    unfold mkdirs at h
    by_cases hlen : NAME_MAX < c.length
    · rw [if_pos hlen] at h; simp at h
    · rw [if_neg hlen] at h
      cases hst : stat fs (stepTo cur c) with
      | none =>
        rw [hst] at h
        simp only at h
        rcases ih _ fs2 _ d hcs h hw p hp with h1 | h1
        · by_cases hpe : p = stepTo cur c
          · right
            rw [hpe]
            exact walk_prefix fs2 cs _ d hcs hw
          · left
            rwa [stat_put_other fs _ p _ hpe] at h1
        · exact Or.inr h1
      | some n =>
        cases n with
        | file content => rw [hst] at h; simp at h
        | dir =>
          rw [hst] at h
          simp only at h
          exact ih fs fs2 _ d hcs h hw p hp

/-- When the directory that creation arrives at was there before, the path resolved to it
before. -/
theorem mkdirs_old (comps : List Str) :
    ∀ (fs fs2 : FS) (cur d : Path), wellFormed fs = true → ['.', '.'] ∉ comps →
      isDir fs cur = true → mkdirs fs cur comps = (fs2, true) → walk fs2 cur comps = some d →
      stat fs d ≠ none → walk fs cur comps = some d := by
  induction comps with
  | nil =>
    intro fs fs2 cur d _ _ _ _ hw _
    simpa [walk] using hw
  | cons c cs ih =>
    intro fs fs2 cur d hwf hno hcur h hw hd
    have hcs : ['.', '.'] ∉ cs := fun e => hno (by simp [e])
    simp only [walk] at hw
    split at hw
    swap
    · exact absurd hw (by simp)
    rename_i hstep
    unfold mkdirs at h
    rw [if_neg (Nat.not_lt.2 hstep.2)] at h
    cases hst : stat fs (stepTo cur c) with
    | none =>
      exfalso
      obtain ⟨t, ht⟩ := walk_prefix fs2 cs _ d hcs hw
      rw [← ht] at hd
      exact prefix_exists fs hwf _ t hd hst
    | some n =>
      cases n with
      | file content => rw [hst] at h; simp at h
      | dir =>
        rw [hst] at h
        simp only at h
        have hnext : isDir fs (stepTo cur c) = true := by unfold isDir; rw [hst]; rfl
        simp only [walk, hcur, hstep.2, and_self, if_true]
        exact ih fs fs2 _ d hwf hcs hnext h hw hd

theorem childName_some (d p : Path) (name : Str) (h : childName d p = some name) :
    p = d ++ [name] := by
  unfold childName at h
  cases hl : p.getLast? with
  | none => simp [hl] at h
  | some x =>
    simp only [hl] at h
    split at h
    · rename_i hdrop
      simp only [Option.some.injEq] at h
      subst h
      rw [← hdrop]
      exact (List.dropLast_append_getLast? x hl).symm
    · exact absurd h (by simp)

theorem children_nil_of_no_child (fs : FS) (d : Path)
    (h : ∀ name, stat fs (d ++ [name]) = none) : children fs d = [] := by
  unfold children
  rw [List.filterMap_eq_nil_iff]
  intro e he
  cases hc : childName d e.1 with
  | none => rfl
  | some name =>
    exfalso
    have hp := childName_some d e.1 name hc
    have := ((stat_eq_none_iff fs _).1 (h name)).2 e he
    exact this hp

/-! ## SEND to a new mailbox -/

theorem ensureSpool_ne_nil (spool : Str) (fs fs1 : FS)
    (hmade : ensureSpool fs spool = (fs1, true)) : spool ≠ [] := by
  rintro rfl
  have h : ensureSpool fs [] = (fs, false) := by
    simp [ensureSpool, fsExists, statThrows, splitPath, walkTooLong, isDir, stat, stepTo, lookup,
      resolve, create_directories, NAME_MAX]
  rw [h] at hmade
  simp at hmade

/-- The state of a mailbox directory that `createDir` has just made, missing directories on the
way to it included. -/
theorem createDir_made_state (fs fsc : FS) (hwf : wellFormed fs = true) (receiverDir : Str)
    (d : Path) (hcreate : create_directories fs receiverDir = (fsc, true))
    (hd : resolve fsc receiverDir = some d) (hdir : isDir fsc d = true)
    (hframe : ∀ p, stat fs p ≠ none → stat fsc p = stat fs p)
    (hnew : ∀ p, stat fsc p ≠ none → stat fs p ≠ none ∨ p <+: d)
    (hfree : stat fs d = none) :
    resolve (createDir fs receiverDir) receiverDir = some d ∧
    isDir (createDir fs receiverDir) d = true ∧
    children (createDir fs receiverDir) d =
      [("index.txt".toList, Node.file (to_string 0 ++ ['\n']))] ∧
    stat (createDir fs receiverDir) (d ++ ["index.txt".toList]) =
      some (Node.file (to_string 0 ++ ['\n'])) ∧
    (∀ name, name ≠ "index.txt".toList → stat (createDir fs receiverDir) (d ++ [name]) = none) ∧
    ∀ p, stat fs p ≠ none → stat (createDir fs receiverDir) p = stat fs p := by
  have hnochild : ∀ name, stat fsc (d ++ [name]) = none := by
    intro name
    by_contra hcon
    rcases hnew _ hcon with h1 | h1
    · have := parent_isDir fs hwf d name h1
      simp [isDir, hfree] at this
    · have := h1.length_le
      simp at this
  have hidxfree : isDir fsc (d ++ ["index.txt".toList]) = false := by
    unfold isDir; rw [hnochild]; rfl
  have hput : createDir fs receiverDir =
      put fsc (d ++ ["index.txt".toList]) (Node.file (to_string 0 ++ ['\n'])) := by
    rw [createDir, hcreate]
    simp only
    rw [updateIndex_child fsc receiverDir d 0 hd hdir hidxfree]
  have hmono : ∀ p, isDir fsc p = true → isDir (createDir fs receiverDir) p = true := by
    intro p hp
    rw [hput]
    exact isDir_put_file _ _ p _ hidxfree hp
  refine ⟨resolve_mono fsc _ hmono receiverDir d hd, hmono d hdir, ?_, ?_, ?_, ?_⟩
  · rw [hput, put_of_absent _ _ _ ((stat_eq_none_iff _ _).1 (hnochild _)).2, children_append,
      children_nil_of_no_child fsc d hnochild, children_single_same]
    rfl
  · rw [hput, stat_put_same _ _ _ (by simp)]
  · intro name hname
    rw [hput, stat_put_other _ _ _ _ (by
      intro h
      exact hname (by simpa using List.append_cancel_left h))]
    exact hnochild name
  · intro p hp
    have hne : p ≠ d ++ ["index.txt".toList] := by
      rintro rfl
      exact hp (stat_child_none fs hwf d _ hfree)
    rw [hput, stat_put_other _ _ _ _ hne]
    exact hframe p hp

/-- What a SEND that finds nothing at the receiver path makes of the store with the spool root:
the directory the receiver path names is new and holds only `index.txt`. -/
theorem send_new_state (spool receiver : Str) (fs fs1 : FS) (hwf : wellFormed fs = true)
    (hmade : ensureSpool fs spool = (fs1, true))
    (hex : fsExists fs1 (spool ++ "/".toList ++ receiver) = some false)
    (hnodd : ['.', '.'] ∉ splitPath receiver)
    (hcreate : (create_directories fs1 (spool ++ "/".toList ++ receiver)).2 = true) :
    ∃ d, stat fs1 d = none ∧
      resolve (createDir fs1 (spool ++ "/".toList ++ receiver)) (spool ++ "/".toList ++ receiver)
        = some d ∧
      isDir (createDir fs1 (spool ++ "/".toList ++ receiver)) d = true ∧
      children (createDir fs1 (spool ++ "/".toList ++ receiver)) d =
        [("index.txt".toList, Node.file (to_string 0 ++ ['\n']))] ∧
      stat (createDir fs1 (spool ++ "/".toList ++ receiver)) (d ++ ["index.txt".toList]) =
        some (Node.file (to_string 0 ++ ['\n'])) ∧
      (∀ name, name ≠ "index.txt".toList →
        stat (createDir fs1 (spool ++ "/".toList ++ receiver)) (d ++ [name]) = none) ∧
      ∀ p, stat fs1 p ≠ none →
        stat (createDir fs1 (spool ++ "/".toList ++ receiver)) p = stat fs1 p := by
  have hspool : spool ≠ [] := ensureSpool_ne_nil spool fs fs1 hmade
  have hwf1 : wellFormed fs1 = true := ensureSpool_wellFormed spool fs fs1 hwf hmade
  obtain ⟨s, hs1, hsne⟩ := ensureSpool_spool spool fs fs1 hmade
  cases hc : create_directories fs1 (spool ++ "/".toList ++ receiver) with
  | mk fsc b =>
    rw [hc] at hcreate
    simp only at hcreate
    subst hcreate
    obtain ⟨hframe, d, hd, hdir⟩ := create_directories_ok fs1 fsc _ hc
    have hmono : ∀ p, isDir fs1 p = true → isDir fsc p = true := isDir_of_frame fs1 fsc hframe
    cases spool with
    | nil => exact absurd rfl hspool
    | cons c cs =>
      have hrd : (c :: cs) ++ "/".toList ++ receiver = (c :: cs) ++ '/' :: receiver :=
        append_slash _ _
      rw [hrd] at hc hd hex ⊢
      have hsw : walk fs1 [] (splitPath (c :: cs)) = some s := hs1
      have hsw2 : walk fsc [] (splitPath (c :: cs)) = some s := walk_mono fs1 fsc hmono _ _ s hsw
      have hdw : walk fsc [] (splitPath ((c :: cs) ++ '/' :: receiver)) = some d := hd
      rw [splitPath_append, walk_append, hsw2] at hdw
      simp only [Option.some_bind] at hdw
      have hsdirc : isDir fsc s = true := by
        cases hsp : splitPath receiver with
        | nil => exact absurd hsp (splitPath_ne_nil receiver)
        | cons x xs =>
          rw [hsp] at hdw
          simp only [walk] at hdw
          by_contra hnd
          simp [hnd] at hdw
      have hsdir : isDir fs1 s = true := by
        unfold isDir at hsdirc ⊢
        rwa [hframe s hsne] at hsdirc
      have hm : mkdirs fs1 s (splitPath receiver) = (fsc, true) := by
        rw [← mkdirs_append_existing fs1 _ (splitPath receiver) [] s hsw hsdir,
          ← splitPath_append]
        exact hc
      have hfree : stat fs1 d = none := by
        by_contra hcon
        have hw1 := mkdirs_old _ fs1 fsc s d hwf1 hnodd hsdir hm hdw hcon
        have hr : resolve fs1 ((c :: cs) ++ '/' :: receiver) = some d := by
          show walk fs1 [] (splitPath ((c :: cs) ++ '/' :: receiver)) = some d
          rw [splitPath_append, walk_append, hsw]
          exact hw1
        rw [fsExists_of_resolve fs1 _ d hr] at hex
        cases hst : stat fs1 d with
        | none => exact hcon hst
        | some n => simp [hst] at hex
      have hnew := mkdirs_new _ fs1 fsc s d hnodd hm hdw
      exact ⟨d, hfree, createDir_made_state fs1 fsc hwf1 _ d hc hd hdir hframe hnew hfree⟩

/-- A SEND with 5 fields whose receiver is one name of more than `NAME_MAX` bytes, the spool
directory being there: `fs::exists` throws on the receiver path, nothing catches it, and the
request gets no reply. -/
theorem handle_SEND_long_name (below : Char) (spool : Str) (s : Path) (fs : FS)
    (recvd stripped : Str) (cmd sender receiver subject body : Str)
    (hs : stripNewline below recvd = some stripped)
    (hcmd : strncmp0 (cstr stripped) "SEND".toList 4 = true)
    (hparts : getlines (cstr stripped) = [cmd, sender, receiver, subject, body])
    (hres : resolve fs spool = some s) (hsd : isDir fs s = true)
    (hslash : '/' ∉ receiver) (hlong : NAME_MAX < receiver.length) :
    handle below spool fs recvd = Outcome.terminate fs := by
  have hrecv : (getlines (cstr stripped)).getD 2 [] = receiver := by rw [hparts]; rfl
  have hcnt : (getlines (cstr stripped)).length = 5 := by rw [hparts]; rfl
  have hthrow : statThrows fs (spool ++ "/".toList ++ receiver) = true := by
    rw [append_slash, statThrows_child fs spool receiver s hres, splitPath_plain receiver hslash]
    simp [walkTooLong, hsd, hlong]
  rw [handle_of_strip spool fs hs,
    dispatch_SEND spool fs fs (cstr stripped) false hcmd hcnt
      (ensureSpool_of_resolve fs spool s hres hsd), hrecv]
  have hex : fsExists fs (spool ++ "/".toList ++ receiver) = none := by
    rw [fsExists, hthrow]; rfl
  rw [sendInto, hex]

/-- A LIST with 2 fields whose mailbox is one name of more than `NAME_MAX` bytes, the spool
directory being there: `fs::is_directory` throws and the request gets no reply. -/
theorem handle_LIST_long_name (below : Char) (spool : Str) (s : Path) (fs : FS)
    (recvd stripped : Str) (cmd mailbox : Str)
    (hs : stripNewline below recvd = some stripped)
    (hcmd : strncmp0 (cstr stripped) "LIST".toList 4 = true)
    (hparts : getlines (cstr stripped) = [cmd, mailbox])
    (hres : resolve fs spool = some s) (hsd : isDir fs s = true)
    (hslash : '/' ∉ mailbox) (hlong : NAME_MAX < mailbox.length) :
    handle below spool fs recvd = Outcome.terminate fs := by
  have hrecv : (getlines (cstr stripped)).getD 1 [] = mailbox := by rw [hparts]; rfl
  have hcnt : (getlines (cstr stripped)).length = 2 := by rw [hparts]; rfl
  have hthrow : statThrows fs (spool ++ "/".toList ++ mailbox) = true := by
    rw [append_slash, statThrows_child fs spool mailbox s hres, splitPath_plain mailbox hslash]
    simp [walkTooLong, hsd, hlong]
  rw [handle_of_strip spool fs hs]
  simp only [dispatch, strncmp0_LIST hcmd, hcmd, hcnt, hrecv, listInto, is_directory, hthrow,
    if_true, if_false, Bool.false_eq_true]

/-- C4 (amended): a SEND with exactly 5 fields in a well formed store where, once the spool root
exists (the SEND makes it when it is missing), the status call on the receiver path finds nothing,
neither a directory nor a file, the receiver has no `..` component, and the directories of the
receiver path can be made (no name on it has more than 255 bytes and no regular file lies where a
directory is needed): the response is `OK`; afterwards the mailbox directory exists and holds only
the counter file `index.txt` with content 0 and no message file, and every entry that was there is
unchanged; a following SEND to the same mailbox writes the first message file, `1.txt`, and sets
the counter to 1. -/
theorem C4_send_new_mailbox (below : Char) (spool : Str) (fs fs1 : FS) (recvd stripped : Str)
    (cmd sender receiver subject body : Str)
    (hwf : wellFormed fs = true)
    (hs : stripNewline below recvd = some stripped)
    (hcmd : strncmp0 (cstr stripped) "SEND".toList 4 = true)
    (hparts : getlines (cstr stripped) = [cmd, sender, receiver, subject, body])
    (hmade : ensureSpool fs spool = (fs1, true))
    (hex : fsExists fs1 (spool ++ "/".toList ++ receiver) = some false)
    (hnodd : ['.', '.'] ∉ splitPath receiver)
    (hcreate : (create_directories fs1 (spool ++ "/".toList ++ receiver)).2 = true) :
    ∃ fs2, handle below spool fs recvd = Outcome.reply fs2 "OK".toList ∧
      is_directory fs2 (spool ++ "/".toList ++ receiver) = some true ∧
      directory_iterator fs2 (spool ++ "/".toList ++ receiver) =
        [("index.txt".toList, Node.file "0\n".toList)] ∧
      messageNames fs2 (spool ++ "/".toList ++ receiver) = [] ∧
      (∀ p, stat fs1 p ≠ none → stat fs2 p = stat fs1 p) ∧
      ∀ (below2 : Char) (recvd2 stripped2 cmd2 sender2 subject2 body2 : Str),
        stripNewline below2 recvd2 = some stripped2 →
        strncmp0 (cstr stripped2) "SEND".toList 4 = true →
        getlines (cstr stripped2) = [cmd2, sender2, receiver, subject2, body2] →
        ∃ fs3, handle below2 spool fs2 recvd2 = Outcome.reply fs3 "OK".toList ∧
          lookup fs3 (spool ++ "/".toList ++ receiver ++ "/1.txt".toList) =
            some (Node.file (sender2 ++ ['\n'] ++ (receiver ++ ['\n']) ++ (subject2 ++ ['\n'])
              ++ (body2 ++ ['\n']))) ∧
          lookup fs3 (spool ++ "/".toList ++ receiver ++ "/index.txt".toList) =
            some (Node.file "1\n".toList) := by
  have hspool : spool ≠ [] := ensureSpool_ne_nil spool fs fs1 hmade
  have hrecv : (getlines (cstr stripped)).getD 2 [] = receiver := by rw [hparts]; rfl
  have hcnt : (getlines (cstr stripped)).length = 5 := by rw [hparts]; rfl
  have hdisp := dispatch_SEND spool fs fs1 (cstr stripped) false hcmd hcnt hmade
  rw [hrecv, sendInto_free fs1 _ _ hex] at hdisp
  obtain ⟨d, hfree, hres, hdir, hch, hidx, hnone, hframe⟩ :=
    send_new_state spool receiver fs fs1 hwf hmade hex hnodd hcreate
  have hdirstat : stat (createDir fs1 (spool ++ "/".toList ++ receiver)) d = some Node.dir := by
    simpa [isDir] using hdir
  refine ⟨createDir fs1 (spool ++ "/".toList ++ receiver),
    by rw [handle_of_strip spool fs hs, hdisp], ?_, ?_, ?_, hframe, ?_⟩
  · rw [is_directory_of_resolve _ _ d hres, hdir]
  · simp only [directory_iterator, hres, hch]
    rfl
  · simp only [messageNames, regularFiles, directory_iterator, hres, hch]
    decide
  · intro below2 recvd2 stripped2 cmd2 sender2 subject2 body2 hs2 hcmd2 hparts2
    have e1 : to_string (0 + 1) ++ ".txt".toList = "1.txt".toList := by decide
    have hfree2 : isDir (createDir fs1 (spool ++ "/".toList ++ receiver))
        (d ++ [to_string (0 + 1) ++ ".txt".toList]) = false := by
      unfold isDir
      rw [e1, hnone _ (by decide)]
      rfl
    obtain ⟨fs3, h1, h2, h3, h4⟩ := handle_SEND_write below2 spool
      (createDir fs1 (spool ++ "/".toList ++ receiver)) recvd2 stripped2 cmd2 sender2 receiver
      subject2 body2 d 0 hs2 hcmd2 hparts2 hspool hres hdir
      (Or.inr ⟨to_string 0 ++ ['\n'], hidx, by decide⟩) (by decide) (by decide) hfree2
    have hmono3 : ∀ p, isDir (createDir fs1 (spool ++ "/".toList ++ receiver)) p = true →
        isDir fs3 p = true := by
      intro p hp
      have hp1 : p ≠ d ++ [to_string (0 + 1) ++ ".txt".toList] := by
        rintro rfl
        rw [hfree2] at hp
        exact absurd hp (by simp)
      have hp2 : p ≠ d ++ ["index.txt".toList] := by
        rintro rfl
        unfold isDir at hp
        rw [hidx] at hp
        exact absurd hp (by simp)
      unfold isDir at hp ⊢
      rwa [h4 p hp1 hp2]
    have hres3 := resolve_mono _ fs3 hmono3 _ d hres
    have hdir3 := hmono3 d hdir
    refine ⟨fs3, h1, ?_, ?_⟩
    · have e : spool ++ "/".toList ++ receiver ++ "/1.txt".toList =
          (spool ++ "/".toList ++ receiver) ++ '/' :: "1.txt".toList := rfl
      rw [e, lookup_child fs3 _ "1.txt".toList d hres3 hdir3 (by decide) (by decide) (by decide)
        (by decide) (by decide), ← e1]
      exact h2
    · have e : spool ++ "/".toList ++ receiver ++ "/index.txt".toList =
          (spool ++ "/".toList ++ receiver) ++ '/' :: "index.txt".toList := rfl
      rw [e, lookup_child fs3 _ "index.txt".toList d hres3 hdir3 (by decide) (by decide)
        (by decide) (by decide) (by decide)]
      exact h3

/-- A SEND into a store without the spool root, to a receiver below a directory that is missing
too: the SEND makes all three directories. -/
theorem C4_send_new_mailbox_witness :
    ∃ fs2, handle 'x' "spool".toList [] "SEND\nA\nteam/B\nSubj\nBody".toList =
        Outcome.reply fs2 "OK".toList ∧
      is_directory fs2 ("spool".toList ++ "/".toList ++ "team/B".toList) = some true ∧
      directory_iterator fs2 ("spool".toList ++ "/".toList ++ "team/B".toList) =
        [("index.txt".toList, Node.file "0\n".toList)] :=
  match C4_send_new_mailbox 'x' "spool".toList [] [(["spool".toList], Node.dir)]
      "SEND\nA\nteam/B\nSubj\nBody".toList "SEND\nA\nteam/B\nSubj\nBody".toList "SEND".toList
      "A".toList "team/B".toList "Subj".toList "Body".toList
      (by decide) (by decide) (by decide) (by decide) (by decide) (by decide) (by decide)
      (by decide) with
  | ⟨fs2, h1, h2, h3, _⟩ => ⟨fs2, h1, h2, h3⟩

/-- C4 (as stated, refuted): a regular file lies at the receiver path, so the mailbox directory
does not exist; the SEND is answered `OK`, nothing is created, and the mailbox directory still
does not exist.  Such a store arises from requests alone: a SEND with the empty receiver name
writes `1.txt` and `index.txt` into the spool root, and a SEND to receiver `index.txt` then finds a
regular file at its path. -/
theorem C4_file_at_mailbox_path :
    is_directory [(["spool".toList], Node.dir), (["spool".toList, "B".toList], Node.file [])]
        "spool/B".toList = some false ∧
    handle 'x' "spool".toList
        [(["spool".toList], Node.dir), (["spool".toList, "B".toList], Node.file [])]
        "SEND\nA\nB\nSubj\nBody".toList =
      Outcome.reply [(["spool".toList], Node.dir), (["spool".toList, "B".toList], Node.file [])]
        "OK".toList ∧
    handle 'x' "spool".toList [] "SEND\nA\n\nSubj\nBody".toList =
      Outcome.reply
        [(["spool".toList], Node.dir),
          (["spool".toList, "1.txt".toList], Node.file "A\n\nSubj\nBody\n".toList),
          (["spool".toList, "index.txt".toList], Node.file "1\n".toList)]
        "OK".toList ∧
    is_directory
        [(["spool".toList], Node.dir),
          (["spool".toList, "1.txt".toList], Node.file "A\n\nSubj\nBody\n".toList),
          (["spool".toList, "index.txt".toList], Node.file "1\n".toList)]
        "spool/index.txt".toList = some false ∧
    handle 'x' "spool".toList
        [(["spool".toList], Node.dir),
          (["spool".toList, "1.txt".toList], Node.file "A\n\nSubj\nBody\n".toList),
          (["spool".toList, "index.txt".toList], Node.file "1\n".toList)]
        "SEND\nA\nindex.txt\nSubj\nBody".toList =
      Outcome.reply
        [(["spool".toList], Node.dir),
          (["spool".toList, "1.txt".toList], Node.file "A\n\nSubj\nBody\n".toList),
          (["spool".toList, "index.txt".toList], Node.file "1\n".toList)]
        "OK".toList := by
  decide

/-! ## LIST -/

theorem children_names (fs : FS) (d : Path) :
    (children fs d).map (fun e => e.1) = (fs.map (fun e => e.1)).filterMap (childName d) := by
  induction fs with
  | nil => rfl
  | cons e rest ih =>
    simp only [children, List.filterMap_cons, List.map_cons] at ih ⊢
    cases h : childName d e.1 with
    | none => simpa [h] using ih
    | some name => simpa [h] using ih

theorem childName_injective (d p q : Path) (name : Str) (hp : childName d p = some name)
    (hq : childName d q = some name) : p = q := by
  have key : ∀ r : Path, childName d r = some name → r = d ++ [name] := by
    intro r hr
    unfold childName at hr
    cases hl : r.getLast? with
    | none => simp [hl] at hr
    | some x =>
      simp only [hl] at hr
      split at hr
      · rename_i hdrop
        simp only [Option.some.injEq] at hr
        subst hr
        rw [← hdrop]
        exact (List.dropLast_append_getLast? x hl).symm
      · exact absurd hr (by simp)
  rw [key p hp, key q hq]

/-- In a well formed store the names in a directory are distinct. -/
theorem children_nodup (fs : FS) (hwf : wellFormed fs = true) (d : Path) :
    ((children fs d).map (fun e => e.1)).Nodup := by
  rw [children_names]
  refine List.Nodup.filterMap ?_ ((wellFormed_iff fs).1 hwf).1
  intro p q name hp hq
  exact childName_injective d p q name (by simpa using hp) (by simpa using hq)

theorem length_filter_ne (l : List (Str × Node)) (x : Str)
    (hnd : (l.map (fun e => e.1)).Nodup) (hx : x ∈ l.map (fun e => e.1)) :
    l.length = (l.filter (fun e => e.1 ≠ x)).length + 1 := by
  induction l with
  | nil => simp at hx
  | cons e rest ih =>
    simp only [List.map_cons, List.nodup_cons] at hnd
    by_cases he : e.1 = x
    · have hrest : rest.filter (fun e => e.1 ≠ x) = rest := by
        rw [List.filter_eq_self]
        intro a ha
        have : a.1 ≠ x := by
          intro h
          apply hnd.1
          rw [he, ← h]
          exact List.mem_map_of_mem _ ha
        simpa using this
      rw [List.filter_cons_of_neg (by simpa using he), hrest]
      rfl
    · have hx2 : x ∈ rest.map (fun e => e.1) := by
        simp only [List.map_cons, List.mem_cons] at hx
        rcases hx with h | h
        · exact absurd h.symm he
        · exact h
      simp [List.filter, he, ih hnd.2 hx2]

/-- The counting loop of `listFiles` while the count stays an `int`. -/
theorem countLoop_eq (l : List (Str × Node)) :
    ∀ c : Int, 0 ≤ c → c + ((l.filter is_regular_file).length : Int) ≤ INT_MAX →
      l.foldl (fun found entry => if is_regular_file entry then incr found else found) c =
        c + ((l.filter is_regular_file).length : Int) := by
  induction l with
  | nil => intro c _ _; simp
  | cons e rest ih =>
    intro c hc hle
    simp only [List.foldl_cons]
    cases he : is_regular_file e with
    | false =>
      simp only [List.filter_cons, he, Bool.false_eq_true, if_false] at hle ⊢
      exact ih c hc hle
    | true =>
      simp only [List.filter_cons, he, if_true, List.length_cons, Nat.cast_add, Nat.cast_one] at hle ⊢
      have hne : c ≠ INT_MAX := by omega
      rw [show incr c = c + 1 by simp [incr, hne], ih (c + 1) (by omega) (by omega)]
      omega

theorem listFiles_eq (fs : FS) (directoryPath : Str)
    (hk : (regularFiles fs directoryPath).length ≤ 2147483647) :
    listFiles fs directoryPath =
      to_string (((regularFiles fs directoryPath).length : Int) - 1) ++ " messages\n".toList ++
        ((messageNames fs directoryPath).map (fun name => name ++ ['\n'])).flatten := by
  have hcount := countLoop_eq (directory_iterator fs directoryPath) 0 (le_refl 0)
    (by unfold regularFiles at hk; unfold INT_MAX; omega)
  have hdecr : decr (0 + (((directory_iterator fs directoryPath).filter is_regular_file).length : Int))
      = (((directory_iterator fs directoryPath).filter is_regular_file).length : Int) - 1 := by
    unfold decr INT_MIN
    rw [if_neg (by omega)]
    omega
  simp only [listFiles, hcount, hdecr, regularFiles, messageNames, List.filter_filter, List.map_map]
  congr 2
  · congr 1
    apply List.filter_congr
    intro e _
    cases h : is_regular_file e <;> simp [h]

/-- The dispatch of a LIST with 2 fields that names a directory. -/
theorem handle_LIST (below : Char) (spool : Str) (fs : FS) (recvd stripped : Str)
    (cmd mailbox : Str)
    (hs : stripNewline below recvd = some stripped)
    (hcmd : strncmp0 (cstr stripped) "LIST".toList 4 = true)
    (hparts : getlines (cstr stripped) = [cmd, mailbox])
    (hdir : is_directory fs (spool ++ "/".toList ++ mailbox) = some true) :
    handle below spool fs recvd =
      Outcome.reply fs (listFiles fs (spool ++ "/".toList ++ mailbox)) := by
  have hrecv : (getlines (cstr stripped)).getD 1 [] = mailbox := by rw [hparts]; rfl
  have hcnt : (getlines (cstr stripped)).length = 2 := by rw [hparts]; rfl
  rw [handle_of_strip spool fs hs]
  simp only [dispatch, strncmp0_LIST hcmd, hcmd, hcnt, hrecv, listInto, hdir, if_true, if_false,
    Bool.false_eq_true]

/-- C6 (amended): a LIST with exactly 2 fields that names a directory of the store holding `k`
regular files, `k` at most the largest `int`, is answered, the store unchanged, by the line
`(k-1) messages` followed by the names of the regular files other than `index.txt`, one per
line; when `index.txt` is among the regular files, the count is not negative and is the number
of names listed, and the first line is `0 messages` when `index.txt` is the only regular
file. -/
theorem C6_list_response (below : Char) (spool : Str) (fs : FS) (recvd stripped : Str)
    (cmd mailbox : Str)
    (hwf : wellFormed fs = true)
    (hs : stripNewline below recvd = some stripped)
    (hcmd : strncmp0 (cstr stripped) "LIST".toList 4 = true)
    (hparts : getlines (cstr stripped) = [cmd, mailbox])
    (hdir : is_directory fs (spool ++ "/".toList ++ mailbox) = some true)
    (hk : (regularFiles fs (spool ++ "/".toList ++ mailbox)).length ≤ 2147483647) :
    handle below spool fs recvd =
      Outcome.reply fs
        (to_string (((regularFiles fs (spool ++ "/".toList ++ mailbox)).length : Int) - 1)
          ++ " messages\n".toList
          ++ ((messageNames fs (spool ++ "/".toList ++ mailbox)).map
              (fun name => name ++ ['\n'])).flatten) ∧
    ("index.txt".toList ∈ (regularFiles fs (spool ++ "/".toList ++ mailbox)).map (fun e => e.1) →
      (0 : Int) ≤ ((regularFiles fs (spool ++ "/".toList ++ mailbox)).length : Int) - 1 ∧
      ((regularFiles fs (spool ++ "/".toList ++ mailbox)).length : Int) - 1 =
        (messageNames fs (spool ++ "/".toList ++ mailbox)).length) ∧
    ((regularFiles fs (spool ++ "/".toList ++ mailbox)).map (fun e => e.1) = ["index.txt".toList] →
      handle below spool fs recvd = Outcome.reply fs "0 messages\n".toList) := by
  have hdisp := handle_LIST below spool fs recvd stripped cmd mailbox hs hcmd hparts hdir
  have hcount : "index.txt".toList ∈
      (regularFiles fs (spool ++ "/".toList ++ mailbox)).map (fun e => e.1) →
      (regularFiles fs (spool ++ "/".toList ++ mailbox)).length =
        (messageNames fs (spool ++ "/".toList ++ mailbox)).length + 1 := by
    intro hmem
    have hnd : ((regularFiles fs (spool ++ "/".toList ++ mailbox)).map (fun e => e.1)).Nodup := by
      unfold regularFiles directory_iterator
      cases resolve fs (spool ++ "/".toList ++ mailbox) with
      | none => simp
      | some p =>
        exact List.Nodup.sublist (List.Sublist.map _ (List.filter_sublist _))
          (children_nodup fs hwf p)
    have := length_filter_ne _ _ hnd hmem
    simpa [messageNames] using this
  refine ⟨by rw [hdisp, listFiles_eq fs _ hk], fun hmem => ?_, fun honly => ?_⟩
  · have := hcount hmem
    omega
  · have hmem : "index.txt".toList ∈
        (regularFiles fs (spool ++ "/".toList ++ mailbox)).map (fun e => e.1) := by
      rw [honly]; simp
    have hlen : (regularFiles fs (spool ++ "/".toList ++ mailbox)).length = 1 := by
      have := congrArg List.length honly
      simpa using this
    have hnames : messageNames fs (spool ++ "/".toList ++ mailbox) = [] := by
      have := hcount hmem
      rw [hlen] at this
      exact List.length_eq_zero.1 (by omega)
    rw [hdisp, listFiles_eq fs _ hk, hlen, hnames]
    have e : to_string (((1 : Nat) : Int) - 1) ++ " messages\n".toList ++
        (List.map (fun name : Str => name ++ ['\n']) []).flatten = "0 messages\n".toList := by
      decide
    rw [e]

/-- A LIST of a mailbox with the counter file and two messages. -/
theorem C6_list_response_witness :
    handle 'x' "spool".toList
        [(["spool".toList], Node.dir), (["spool".toList, "Bob".toList], Node.dir),
          (["spool".toList, "Bob".toList, "index.txt".toList], Node.file "2\n".toList),
          (["spool".toList, "Bob".toList, "1.txt".toList], Node.file "A\nBob\nS\nB\n".toList),
          (["spool".toList, "Bob".toList, "2.txt".toList], Node.file "C\nBob\nT\nD\n".toList)]
        "LIST\nBob\n".toList =
      Outcome.reply
        [(["spool".toList], Node.dir), (["spool".toList, "Bob".toList], Node.dir),
          (["spool".toList, "Bob".toList, "index.txt".toList], Node.file "2\n".toList),
          (["spool".toList, "Bob".toList, "1.txt".toList], Node.file "A\nBob\nS\nB\n".toList),
          (["spool".toList, "Bob".toList, "2.txt".toList], Node.file "C\nBob\nT\nD\n".toList)]
        "2 messages\n1.txt\n2.txt\n".toList :=
  (C6_list_response 'x' "spool".toList _ "LIST\nBob\n".toList "LIST\nBob".toList "LIST".toList
    "Bob".toList (by decide) (by decide) (by decide) (by decide) (by decide) (by decide)).1

/-! ## A directory with more regular files than an `int` counts -/

theorem children_cons_none (e : Path × Node) (fs : FS) (d : Path) (h : childName d e.1 = none) :
    children (e :: fs) d = children fs d := by
  simp [children, List.filterMap_cons, h]

theorem children_files (a b : Str) (name : Nat → Str) (l : List Nat) :
    children (l.map (fun i => ([a, b, name i], Node.file []))) [a, b] =
      l.map (fun i => (name i, Node.file [])) := by
  induction l with
  | nil => rfl
  | cons i rest ih =>
    simp only [children, List.map_cons, List.filterMap_cons] at ih ⊢
    have h : childName [a, b] [a, b, name i] = some (name i) := by
      simp [childName]
    simp only [h, Option.map_some']
    rw [ih]

theorem filter_regular_files (name : Nat → Str) (l : List Nat) :
    (l.map (fun i => (name i, Node.file []))).filter is_regular_file =
      l.map (fun i => (name i, Node.file [])) := by
  rw [List.filter_eq_self]
  intro e he
  obtain ⟨i, _, hi⟩ := List.mem_map.1 he
  rw [← hi]
  rfl

theorem crowded_resolve : resolve crowdedStore "spool/B".toList =
    some ["spool".toList, "B".toList] := by
  decide

theorem crowded_is_directory : is_directory crowdedStore "spool/B".toList = some true := by
  decide

theorem crowded_iterator : directory_iterator crowdedStore "spool/B".toList =
    (List.range 2147483649).map
      (fun i : Nat => (to_string (i : Int) ++ ".txt".toList, Node.file [])) := by
  rw [directory_iterator, crowded_resolve]
  simp only
  unfold crowdedStore
  rw [children_cons_none _ _ _ (by decide), children_cons_none _ _ _ (by decide)]
  exact children_files "spool".toList "B".toList
    (fun i : Nat => to_string (i : Int) ++ ".txt".toList) _

/-- The counting loop over 2^31 + 1 regular files ends at the smallest `int` plus one. -/
theorem countLoop_overflow (name : Nat → Str) :
    ((List.range 2147483649).map (fun i => (name i, Node.file []))).foldl
      (fun found entry => if is_regular_file entry then incr found else found) 0 =
      INT_MIN + 1 := by
  have hr : List.range 2147483649 = List.range 2147483647 ++ [2147483647, 2147483648] := by
    rw [show (2147483649 : Nat) = 2147483647 + 1 + 1 by norm_num, List.range_succ, List.range_succ]
    simp
  have hreg : ∀ x : Str, is_regular_file (x, Node.file []) = true := fun _ => rfl
  rw [hr, List.map_append, List.foldl_append]
  have h1 := countLoop_eq ((List.range 2147483647).map (fun i => (name i, Node.file []))) 0
    (le_refl 0) (by
      rw [filter_regular_files]
      simp only [List.length_map, List.length_range]
      unfold INT_MAX
      norm_num)
  rw [h1, filter_regular_files]
  simp only [List.length_map, List.length_range, List.map_cons, List.map_nil, List.foldl_cons,
    List.foldl_nil, hreg, if_true]
  decide

theorem crowded_count : (regularFiles crowdedStore "spool/B".toList).length = 2147483649 := by
  rw [regularFiles, crowded_iterator, filter_regular_files]
  simp

theorem crowded_listFiles : listFiles crowdedStore "spool/B".toList =
    "-2147483648 messages\n".toList ++
      (((directory_iterator crowdedStore "spool/B".toList).filter
          (fun entry => is_regular_file entry ∧ entry.1 ≠ "index.txt".toList)).map
        (fun entry => entry.1 ++ ['\n'])).flatten := by
  have hc : (directory_iterator crowdedStore "spool/B".toList).foldl
      (fun found entry => if is_regular_file entry then incr found else found) 0 =
      INT_MIN + 1 := by
    rw [crowded_iterator]
    exact countLoop_overflow _
  have e : to_string (decr (INT_MIN + 1)) ++ " messages\n".toList =
      "-2147483648 messages\n".toList := by decide
  unfold listFiles
  simp only [hc]
  rw [e]

/-- C6 (as stated, refuted): mailbox `B` of `crowdedStore` is a directory with 2^31 + 1 regular
files, so the claimed first line is `2147483648 messages`; the `int` count of `listFiles`
overflows and the response to `LIST` of `B` begins with the line `-2147483648 messages`. -/
theorem C6_count_overflows :
    is_directory crowdedStore "spool/B".toList = some true ∧
    (regularFiles crowdedStore "spool/B".toList).length = 2147483649 ∧
    ∃ rest, handle 'x' "spool".toList crowdedStore "LIST\nB".toList =
      Outcome.reply crowdedStore ("-2147483648 messages\n".toList ++ rest) := by
  refine ⟨crowded_is_directory, crowded_count,
    (((directory_iterator crowdedStore "spool/B".toList).filter
        (fun entry => is_regular_file entry ∧ entry.1 ≠ "index.txt".toList)).map
      (fun entry => entry.1 ++ ['\n'])).flatten, ?_⟩
  have hpath : "spool".toList ++ "/".toList ++ "B".toList = "spool/B".toList := by decide
  rw [handle_LIST 'x' "spool".toList crowdedStore "LIST\nB".toList "LIST\nB".toList "LIST".toList
    "B".toList (by decide) (by decide) (by decide) (by rw [hpath]; exact crowded_is_directory),
    hpath, crowded_listFiles]

/-! ## Scenarios on one connection -/

/-- C1 (code evaluated at the failing input): on one connection, SEND from Alice to the existing
mailbox Bob (counter 0), then LIST Bob, then READ Bob 1.  The message is stored as `1.txt` and
listed, but the READ is answered with the precondition failure, not with `OK` and the four
lines: `readList`, set by the LIST, is declared anew as `false` in the next loop iteration.  With
the flag still set the same READ would return the message. -/
theorem C1_read_after_list_refused :
    clientCommunication "spool".toList
        [(["spool".toList], Node.dir), (["spool".toList, "Bob".toList], Node.dir),
          (["spool".toList, "Bob".toList, "index.txt".toList], Node.file "0\n".toList)]
        [('x', "SEND\nAlice\nBob\nHi\nBody text".toList), ('x', "LIST\nBob".toList),
          ('x', "READ\nBob\n1".toList)] =
      (some [(["spool".toList], Node.dir), (["spool".toList, "Bob".toList], Node.dir),
          (["spool".toList, "Bob".toList, "index.txt".toList], Node.file "1\n".toList),
          (["spool".toList, "Bob".toList, "1.txt".toList],
            Node.file "Alice\nBob\nHi\nBody text\n".toList)],
        ["OK".toList, "1 messages\n1.txt\n".toList,
          "ERR\n Please open LIST at least one time".toList]) ∧
    (dispatch "spool".toList
        [(["spool".toList], Node.dir), (["spool".toList, "Bob".toList], Node.dir),
          (["spool".toList, "Bob".toList, "index.txt".toList], Node.file "1\n".toList),
          (["spool".toList, "Bob".toList, "1.txt".toList],
            Node.file "Alice\nBob\nHi\nBody text\n".toList)]
        "READ\nBob\n1".toList true).1 =
      Outcome.reply
        [(["spool".toList], Node.dir), (["spool".toList, "Bob".toList], Node.dir),
          (["spool".toList, "Bob".toList, "index.txt".toList], Node.file "1\n".toList),
          (["spool".toList, "Bob".toList, "1.txt".toList],
            Node.file "Alice\nBob\nHi\nBody text\n".toList)]
        "OK\nAlice\nBob\nHi\nBody text\n".toList := by
  decide

/-- C7 (as stated, refuted): after the two SEND requests the LIST of `B` is answered
`1 messages` and `1.txt`; the first line is not `0 messages`. -/
theorem C7_list_counts_one :
    (clientCommunication "spool".toList [(["spool".toList], Node.dir)]
        [('x', "SEND\nA\nB\nSubj\nBody".toList), ('x', "SEND\nA\nB\nSubj2\nBody2".toList),
          ('x', "LIST\nB".toList)]).2 =
      ["OK".toList, "OK".toList, "1 messages\n1.txt\n".toList] ∧
    getlines "1 messages\n1.txt\n".toList = ["1 messages".toList, "1.txt".toList] ∧
    getlines "1 messages\n1.txt\n".toList ≠ ["0 messages".toList, "1.txt".toList] := by
  decide

/-- C7 (amended): from an empty spool root, `SEND` of A to B creates mailbox `B` with counter 0
and no message file; the second `SEND` of A to B writes `1.txt` and sets the counter to 1; `LIST`
of B then answers `1 messages` on the first line, followed by the line `1.txt`.  The same holds
when the spool root does not exist yet. -/
theorem C7_scenario :
    handle 'x' "spool".toList [(["spool".toList], Node.dir)] "SEND\nA\nB\nSubj\nBody".toList =
      Outcome.reply
        [(["spool".toList], Node.dir), (["spool".toList, "B".toList], Node.dir),
          (["spool".toList, "B".toList, "index.txt".toList], Node.file "0\n".toList)]
        "OK".toList ∧
    handle 'x' "spool".toList
        [(["spool".toList], Node.dir), (["spool".toList, "B".toList], Node.dir),
          (["spool".toList, "B".toList, "index.txt".toList], Node.file "0\n".toList)]
        "SEND\nA\nB\nSubj2\nBody2".toList =
      Outcome.reply
        [(["spool".toList], Node.dir), (["spool".toList, "B".toList], Node.dir),
          (["spool".toList, "B".toList, "index.txt".toList], Node.file "1\n".toList),
          (["spool".toList, "B".toList, "1.txt".toList], Node.file "A\nB\nSubj2\nBody2\n".toList)]
        "OK".toList ∧
    handle 'x' "spool".toList
        [(["spool".toList], Node.dir), (["spool".toList, "B".toList], Node.dir),
          (["spool".toList, "B".toList, "index.txt".toList], Node.file "1\n".toList),
          (["spool".toList, "B".toList, "1.txt".toList], Node.file "A\nB\nSubj2\nBody2\n".toList)]
        "LIST\nB".toList =
      Outcome.reply
        [(["spool".toList], Node.dir), (["spool".toList, "B".toList], Node.dir),
          (["spool".toList, "B".toList, "index.txt".toList], Node.file "1\n".toList),
          (["spool".toList, "B".toList, "1.txt".toList], Node.file "A\nB\nSubj2\nBody2\n".toList)]
        "1 messages\n1.txt\n".toList ∧
    clientCommunication "spool".toList []
        [('x', "SEND\nA\nB\nSubj\nBody".toList), ('x', "SEND\nA\nB\nSubj2\nBody2".toList),
          ('x', "LIST\nB".toList)] =
      (some [(["spool".toList], Node.dir), (["spool".toList, "B".toList], Node.dir),
          (["spool".toList, "B".toList, "index.txt".toList], Node.file "1\n".toList),
          (["spool".toList, "B".toList, "1.txt".toList], Node.file "A\nB\nSubj2\nBody2\n".toList)],
        ["OK".toList, "OK".toList, "1 messages\n1.txt\n".toList]) := by
  decide

/-- C5 (as stated, refuted): from an empty spool, SEND to `B`, SEND to `B/1.txt`, SEND to `B`.
The second request makes `1.txt` in mailbox `B` a directory, so the third one, which reads counter
0 and stores counter 1, cannot open `B/1.txt` for writing: the counter of `B` is 1 while no SEND
wrote a message file into `B`, which holds no regular file besides `index.txt`. -/
theorem C5_counter_without_message :
    serve "spool".toList []
        [('x', "SEND\nA\nB\nSubj\nBody".toList), ('x', "SEND\nA\nB/1.txt\nSubj\nBody".toList)] =
      some [(["spool".toList], Node.dir), (["spool".toList, "B".toList], Node.dir),
        (["spool".toList, "B".toList, "index.txt".toList], Node.file "0\n".toList),
        (["spool".toList, "B".toList, "1.txt".toList], Node.dir),
        (["spool".toList, "B".toList, "1.txt".toList, "index.txt".toList],
          Node.file "0\n".toList)] ∧
    serve "spool".toList []
        [('x', "SEND\nA\nB\nSubj\nBody".toList), ('x', "SEND\nA\nB/1.txt\nSubj\nBody".toList),
          ('x', "SEND\nA\nB\nSubj\nBody".toList)] =
      some [(["spool".toList], Node.dir), (["spool".toList, "B".toList], Node.dir),
        (["spool".toList, "B".toList, "index.txt".toList], Node.file "1\n".toList),
        (["spool".toList, "B".toList, "1.txt".toList], Node.dir),
        (["spool".toList, "B".toList, "1.txt".toList, "index.txt".toList],
          Node.file "0\n".toList)] ∧
    messageNames [(["spool".toList], Node.dir), (["spool".toList, "B".toList], Node.dir),
        (["spool".toList, "B".toList, "index.txt".toList], Node.file "1\n".toList),
        (["spool".toList, "B".toList, "1.txt".toList], Node.dir),
        (["spool".toList, "B".toList, "1.txt".toList, "index.txt".toList],
          Node.file "0\n".toList)] "spool/B".toList = [] := by
  decide

/-! ## The counter invariant -/

theorem sendFields_some (below : Char) (recvd : Str) (parts : List Str)
    (h : sendFields below recvd = some parts) :
    ∃ stripped, stripNewline below recvd = some stripped ∧
      strncmp0 (cstr stripped) "SEND".toList 4 = true ∧
      (getlines (cstr stripped)).length = 5 ∧ parts = getlines (cstr stripped) := by
  unfold sendFields at h
  cases hs : stripNewline below recvd with
  | none => simp [hs] at h
  | some stripped =>
    simp only [hs] at h
    split at h
    · rename_i hc
      simp only [Option.some.injEq] at h
      exact ⟨stripped, rfl, hc.1, hc.2, h.symm⟩
    · exact absurd h (by simp)

/-- The status of a path of short names below a path that resolves can be taken. -/
theorem is_directory_short (fs : FS) (spool : Str) (s : Path) (name : Str)
    (hres : resolve fs spool = some s) (hshort : shortNames name = true) :
    ∃ b, is_directory fs (spool ++ "/".toList ++ name) = some b := by
  have hthrow : statThrows fs (spool ++ "/".toList ++ name) = false := by
    rw [append_slash, statThrows_child fs spool name s hres]
    exact walkTooLong_short fs _ (by simpa [shortNames] using hshort) s
  exact ⟨_, by rw [is_directory, hthrow]; rfl⟩

/-- A request that is no SEND with 5 fields, and whose mailbox path has short names when it is
a LIST, is answered and leaves the store unchanged. -/
theorem handle_no_send (below : Char) (spool : Str) (s : Path) (fs : FS) (recvd stripped : Str)
    (hres : resolve fs spool = some s)
    (hs : stripNewline below recvd = some stripped) (hno : sendFields below recvd = none)
    (hlist : shortListName (below, recvd) = true) :
    ∃ message, handle below spool fs recvd = Outcome.reply fs message := by
  have hnot : ¬ (strncmp0 (cstr stripped) "SEND".toList 4 = true ∧
      (getlines (cstr stripped)).length = 5) := by
    intro hc
    unfold sendFields at hno
    rw [hs] at hno
    simp only [] at hno
    rw [if_pos hc] at hno
    exact absurd hno (by simp)
  rw [handle_of_strip spool fs hs]
  unfold dispatch
  simp only [Bool.false_eq_true, false_and, if_false]
  by_cases hsend : strncmp0 (cstr stripped) "SEND".toList 4 = true
  · have hcnt : ¬ (getlines (cstr stripped)).length = 5 := fun h => hnot ⟨hsend, h⟩
    rw [if_pos hsend, if_neg hcnt]
    exact ⟨_, rfl⟩
  · rw [if_neg hsend]
    by_cases hl : strncmp0 (cstr stripped) "LIST".toList 4 = true
    · rw [if_pos hl]
      by_cases hcnt : (getlines (cstr stripped)).length = 2
      · rw [if_pos hcnt]
        have hshort : shortNames ((getlines (cstr stripped)).getD 1 []) = true := by
          unfold shortListName at hlist
          simp only [hs] at hlist
          rw [if_pos ⟨hl, hcnt⟩] at hlist
          exact hlist
        obtain ⟨b, hb⟩ := is_directory_short fs spool s _ hres hshort
        simp only [listInto, hb]
        cases b
        · exact ⟨_, rfl⟩
        · exact ⟨_, rfl⟩
      · rw [if_neg hcnt]
        exact ⟨_, rfl⟩
    · rw [if_neg hl]
      split_ifs <;> exact ⟨_, rfl⟩

theorem sendsTo_append (r : Str) (hist : List (Char × Str)) (req : Char × Str) :
    sendsTo r (hist ++ [req]) = sendsTo r hist ++ (if isSendTo r req = true then [req] else []) := by
  simp only [sendsTo, List.filter_append, List.filter_cons, List.filter_nil]

theorem isSendTo_of_none (r : Str) (req : Char × Str) (h : sendFields req.1 req.2 = none) :
    isSendTo r req = false := by
  simp [isSendTo, h]

theorem isSendTo_of_some (r : Str) (req : Char × Str) (parts : List Str)
    (h : sendFields req.1 req.2 = some parts) :
    isSendTo r req = decide (parts.getD 2 [] = r) := by
  simp [isSendTo, h]

theorem MailboxHolds_congr (s : Path) (fs fs1 : FS) (r : Str) (sends : List (Char × Str))
    (hsame : ∀ q, stat fs1 (s ++ r :: q) = stat fs (s ++ r :: q))
    (h : MailboxHolds s fs r sends) : MailboxHolds s fs1 r sends := by
  obtain ⟨h1, h2⟩ := h
  refine ⟨fun he q => by rw [hsame]; exact h1 he q, fun hne => ?_⟩
  obtain ⟨ha, hb, hc, hd⟩ := h2 hne
  refine ⟨?_, ?_, ?_, ?_⟩
  · unfold isDir at ha ⊢
    rw [hsame []]; exact ha
  · rw [hsame ["index.txt".toList]]; exact hb
  · intro name hn
    rw [hsame [name]] at hn
    exact hc name hn
  · intro j req hj hreq
    rw [hsame [to_string (j : Int) ++ ".txt".toList]]
    exact hd j req hj hreq

theorem takeWhile_to_string (n : Int) :
    (to_string n ++ ['\n']).takeWhile (fun c => c ≠ '\n') = to_string n := by
  have h := takeWhile_append_stop (fun c : Char => decide (c ≠ '\n')) (to_string n) '\n' []
    (by
      intro x hx
      have : x ≠ '\n' := by rintro rfl; exact to_string_no_newline n hx
      simpa using this)
    (by simp)
  exact h.1

theorem plainName_iff (name : Str) : plainName name = true ↔
    name ≠ [] ∧ '/' ∉ name ∧ name ≠ ['.'] ∧ name ≠ ['.', '.'] ∧ name.length ≤ NAME_MAX := by
  simp only [plainName, decide_eq_true_eq]

theorem path_ne_of_name_ne (s : Path) (r r0 : Str) (q q0 : List Str) (h : r ≠ r0) :
    s ++ r :: q ≠ s ++ r0 :: q0 := by
  intro heq
  have := List.append_cancel_left heq
  simp only [List.cons.injEq] at this
  exact h this.1

theorem spool_ne_nil (fs : FS) (spool : Str) (s : Path) (h : resolve fs spool = some s) :
    spool ≠ [] := by
  rintro rfl
  simp [resolve] at h

theorem resolve_mailbox (fs : FS) (spool : Str) (s : Path) (r : Str)
    (hres : resolve fs spool = some s) (hsd : isDir fs s = true) (hplain : plainName r = true) :
    resolve fs (spool ++ "/".toList ++ r) = some (s ++ [r]) := by
  obtain ⟨h1, h2, h3, h4, h5⟩ := (plainName_iff r).1 hplain
  rw [append_slash]
  exact resolve_child fs spool r s hres hsd h2 h1 h3 h4 h5

/-- A SEND with 5 fields to a plain receiver of which nothing exists in the spool directory. -/
theorem dispatch_SEND_new_plain (spool : Str) (s : Path) (fs : FS) (r0 buffer : Str)
    (hres : resolve fs spool = some s) (hsd : isDir fs s = true) (hplain : plainName r0 = true)
    (hcmd : strncmp0 buffer "SEND".toList 4 = true) (hcnt : (getlines buffer).length = 5)
    (hr0 : (getlines buffer).getD 2 [] = r0)
    (hnone : ∀ q, stat fs (s ++ r0 :: q) = none) :
    ∃ fs1, dispatch spool fs buffer false = (Outcome.reply fs1 "OK".toList, false) ∧
      (∀ p, isDir fs p = true → isDir fs1 p = true) ∧
      isDir fs1 (s ++ [r0]) = true ∧
      stat fs1 (s ++ [r0, "index.txt".toList]) = some (Node.file (to_string 0 ++ ['\n'])) ∧
      ∀ p, p ≠ s ++ [r0] → p ≠ s ++ [r0, "index.txt".toList] → stat fs1 p = stat fs p := by
  have hd := resolve_mailbox fs spool s r0 hres hsd hplain
  have hfree : stat fs (s ++ [r0]) = none := hnone []
  have e2 : ∀ name : Str, s ++ [r0, name] = (s ++ [r0]) ++ [name] := by intro name; simp
  have hidx0 : stat fs ((s ++ [r0]) ++ ["index.txt".toList]) = none := by
    rw [← e2]; exact hnone ["index.txt".toList]
  have hdisp := dispatch_SEND_free spool fs buffer false (s ++ [r0]) hcmd hcnt
    (spool_ne_nil fs spool s hres) (by rw [hr0]; exact hd) hfree
  rw [hr0, createDir_put fs _ (s ++ [r0]) hd hfree hidx0] at hdisp
  have hne : (s ++ [r0]) ++ ["index.txt".toList] ≠ s ++ [r0] := by
    intro h
    have := congrArg List.length h
    simp at this
  have hidx1 : isDir (put fs (s ++ [r0]) Node.dir) ((s ++ [r0]) ++ ["index.txt".toList]) = false := by
    unfold isDir; rw [stat_put_other fs _ _ _ hne, hidx0]; rfl
  have hmono : ∀ p, isDir fs p = true →
      isDir (put (put fs (s ++ [r0]) Node.dir) ((s ++ [r0]) ++ ["index.txt".toList])
        (Node.file (to_string 0 ++ ['\n']))) p = true :=
    fun p hp => isDir_put_file _ _ p _ hidx1 (isDir_put_dir fs _ p hp)
  refine ⟨_, hdisp, hmono, ?_, ?_, ?_⟩
  · refine isDir_put_file _ _ _ _ hidx1 ?_
    unfold isDir; rw [stat_put_same fs _ _ (by simp)]; rfl
  · rw [e2, stat_put_same _ _ _ (by simp)]
  · intro p h1 h2
    rw [e2] at h2
    rw [stat_put_other _ _ _ _ h2, stat_put_other _ _ _ _ h1]

/-- A SEND with 5 fields to a plain receiver whose mailbox holds counter `n` and no entry named
after message `n + 1`. -/
theorem dispatch_SEND_old_plain (spool : Str) (s : Path) (fs : FS) (r0 buffer : Str) (n : Int)
    (hres : resolve fs spool = some s) (hsd : isDir fs s = true) (hplain : plainName r0 = true)
    (hcmd : strncmp0 buffer "SEND".toList 4 = true) (hcnt : (getlines buffer).length = 5)
    (hr0 : (getlines buffer).getD 2 [] = r0)
    (hdir : isDir fs (s ++ [r0]) = true)
    (hidx : stat fs (s ++ [r0, "index.txt".toList]) = some (Node.file (to_string n ++ ['\n'])))
    (hlo : INT_MIN ≤ n) (hhi : n < INT_MAX)
    (hfree : stat fs (s ++ [r0, to_string (n + 1) ++ ".txt".toList]) = none) :
    ∃ fs1, dispatch spool fs buffer false = (Outcome.reply fs1 "OK".toList, false) ∧
      (∀ p, isDir fs p = true → isDir fs1 p = true) ∧
      stat fs1 (s ++ [r0, to_string (n + 1) ++ ".txt".toList]) =
        some (Node.file (messageText (getlines buffer))) ∧
      stat fs1 (s ++ [r0, "index.txt".toList]) = some (Node.file (to_string (n + 1) ++ ['\n'])) ∧
      ∀ p, p ≠ s ++ [r0, to_string (n + 1) ++ ".txt".toList] → p ≠ s ++ [r0, "index.txt".toList] →
        stat fs1 p = stat fs p := by
  have hd := resolve_mailbox fs spool s r0 hres hsd hplain
  have e2 : ∀ name : Str, s ++ [r0, name] = (s ++ [r0]) ++ [name] := by intro name; simp
  rw [e2] at hidx hfree
  have hfree2 : isDir fs ((s ++ [r0]) ++ [to_string (n + 1) ++ ".txt".toList]) = false := by
    unfold isDir; rw [hfree]; rfl
  have hdisp := dispatch_SEND_write spool fs buffer false (s ++ [r0]) n hcmd hcnt
    (spool_ne_nil fs spool s hres) (by rw [hr0]; exact hd) hdir
    (Or.inr ⟨_, hidx, takeWhile_to_string n⟩) hlo hhi hfree2
  have hst := stat_after_write fs (s ++ [r0]) (to_string (n + 1) ++ ".txt".toList)
    (messageText (getlines buffer)) (to_string (n + 1) ++ ['\n']) (msgName_ne_index (n + 1))
  have hne : (s ++ [r0]) ++ ["index.txt".toList] ≠
      (s ++ [r0]) ++ [to_string (n + 1) ++ ".txt".toList] := by
    intro h
    have := List.append_cancel_left h
    simp only [List.cons.injEq, and_true] at this
    exact msgName_ne_index (n + 1) this.symm
  have hidx1 : isDir (put fs ((s ++ [r0]) ++ [to_string (n + 1) ++ ".txt".toList])
      (Node.file (messageText (getlines buffer)))) ((s ++ [r0]) ++ ["index.txt".toList]) = false := by
    unfold isDir; rw [stat_put_other fs _ _ _ hne, hidx]; rfl
  refine ⟨_, hdisp, ?_, ?_, ?_, ?_⟩
  · exact fun p hp => isDir_put_file _ _ p _ hidx1 (isDir_put_file fs _ p _ hfree2 hp)
  · rw [e2]; exact hst.1
  · rw [e2]; exact hst.2.1
  · intro p h1 h2
    rw [e2] at h1 h2
    exact hst.2.2 p h1 h2

theorem messageOf_of_some (req : Char × Str) (parts : List Str)
    (h : sendFields req.1 req.2 = some parts) : messageOf req = messageText parts := by
  simp [messageOf, h]

/-- The mailbox of the receiver after the SEND that makes it. -/
theorem MailboxHolds_created (s : Path) (fs fs1 : FS) (r0 : Str) (req : Char × Str)
    (hnone : ∀ q, stat fs (s ++ r0 :: q) = none)
    (hdir : isDir fs1 (s ++ [r0]) = true)
    (hidx : stat fs1 (s ++ [r0, "index.txt".toList]) = some (Node.file (to_string 0 ++ ['\n'])))
    (hframe : ∀ p, p ≠ s ++ [r0] → p ≠ s ++ [r0, "index.txt".toList] → stat fs1 p = stat fs p) :
    MailboxHolds s fs1 r0 [req] := by
  refine ⟨fun h => absurd h (by simp), fun _ => ⟨hdir, ?_, ?_, ?_⟩⟩
  · simpa using hidx
  · intro name hn
    by_contra hcon
    push_neg at hcon
    have hne1 : s ++ [r0, name] ≠ s ++ [r0] := by
      intro h
      have := congrArg List.length h
      simp at this
    have hne2 : s ++ [r0, name] ≠ s ++ [r0, "index.txt".toList] := by
      intro h
      have := List.append_cancel_left h
      simp only [List.cons.injEq, and_true, true_and] at this
      exact hcon.1 this
    rw [hframe _ hne1 hne2] at hn
    exact hn (hnone [name])
  · intro j rq hj hrq
    have : j = 0 := by
      by_contra hj0
      have : ([req] : List (Char × Str))[j]? = none := by
        rw [List.getElem?_eq_none]; simp; omega
      rw [this] at hrq
      exact absurd hrq (by simp)
    omega

/-- The mailbox of the receiver after a further SEND to it. -/
theorem MailboxHolds_written (s : Path) (fs fs1 : FS) (r0 : Str) (sends : List (Char × Str))
    (req : Char × Str) (hne : sends ≠ []) (hlen : sends.length ≤ 2147483647)
    (hold : MailboxHolds s fs r0 sends)
    (hmono : ∀ p, isDir fs p = true → isDir fs1 p = true)
    (hmsg : stat fs1 (s ++ [r0, to_string (((sends.length : Int) - 1) + 1) ++ ".txt".toList]) =
      some (Node.file (messageOf req)))
    (hidx : stat fs1 (s ++ [r0, "index.txt".toList]) =
      some (Node.file (to_string (((sends.length : Int) - 1) + 1) ++ ['\n'])))
    (hframe : ∀ p, p ≠ s ++ [r0, to_string (((sends.length : Int) - 1) + 1) ++ ".txt".toList] →
      p ≠ s ++ [r0, "index.txt".toList] → stat fs1 p = stat fs p) :
    MailboxHolds s fs1 r0 (sends ++ [req]) := by
  obtain ⟨ha, _, hc, hd⟩ := hold.2 hne
  have hL : (((sends.length : Int) - 1) + 1) = (sends.length : Int) := by omega
  rw [hL] at hmsg hidx hframe
  have hpos : 1 ≤ sends.length := by
    cases sends with
    | nil => exact absurd rfl hne
    | cons x xs => simp
  have hrange : ∀ j : Nat, j ≤ sends.length → INT_MIN ≤ (j : Int) ∧ (j : Int) ≤ INT_MAX := by
    intro j hj
    unfold INT_MIN INT_MAX
    omega
  have hpathne : ∀ name name2 : Str, name ≠ name2 → s ++ [r0, name] ≠ s ++ [r0, name2] := by
    intro name name2 h heq
    have := List.append_cancel_left heq
    simp only [List.cons.injEq, and_true, true_and] at this
    exact h this
  refine ⟨fun h => absurd h (by simp), fun _ => ⟨hmono _ ha, ?_, ?_, ?_⟩⟩
  · rw [hidx]
    simp only [List.length_append, List.length_singleton]
    have : (((sends.length + 1 : Nat) : Int) - 1) = (sends.length : Int) := by omega
    rw [this]
  · intro name hn
    by_cases h1 : name = "index.txt".toList
    · exact Or.inl h1
    · by_cases h2 : name = to_string (sends.length : Int) ++ ".txt".toList
      · exact Or.inr ⟨sends.length, hpos, by simp, h2⟩
      · rw [hframe _ (hpathne _ _ h2) (hpathne _ _ h1)] at hn
        rcases hc name hn with h | ⟨j, hj1, hj2, hj3⟩
        · exact Or.inl h
        · exact Or.inr ⟨j, hj1, by simp; omega, hj3⟩
  · intro j rq hj hrq
    by_cases hjl : j < sends.length
    · rw [List.getElem?_append_left hjl] at hrq
      have hne1 : to_string (j : Int) ++ ".txt".toList ≠
          to_string (sends.length : Int) ++ ".txt".toList := by
        intro h
        have := msgName_injective _ _ (hrange j (by omega)) (hrange sends.length (by omega)) h
        omega
      rw [hframe _ (hpathne _ _ hne1) (hpathne _ _ (msgName_ne_index _))]
      exact hd j rq hj hrq
    · have hjge : sends.length ≤ j := by omega
      rw [List.getElem?_append_right hjge] at hrq
      have hj0 : j - sends.length = 0 := by
        by_contra hcon
        have : ([req] : List (Char × Str))[j - sends.length]? = none := by
          rw [List.getElem?_eq_none]; simp; omega
        rw [this] at hrq
        exact absurd hrq (by simp)
      have hjeq : j = sends.length := by omega
      rw [hj0] at hrq
      simp only [List.getElem?_cons_zero, Option.some.injEq] at hrq
      rw [hjeq, ← hrq]
      exact hmsg

/-- One request keeps the state of every plain mailbox in step with the requests handled. -/
theorem step_inv (spool : Str) (s : Path) (fs : FS) (hist : List (Char × Str))
    (req : Char × Str)
    (hres : resolve fs spool = some s) (hsd : isDir fs s = true)
    (hbox : ∀ r, plainName r = true → MailboxHolds s fs r (sendsTo r hist))
    (hdef : stripNewline req.1 req.2 ≠ none) (hplain : plainReceiver req = true)
    (hlist : shortListName req = true)
    (hbound : ∀ r, (sendsTo r (hist ++ [req])).length ≤ 2147483648) :
    ∃ fs1 message, handle req.1 spool fs req.2 = Outcome.reply fs1 message ∧
      resolve fs1 spool = some s ∧ isDir fs1 s = true ∧
      ∀ r, plainName r = true → MailboxHolds s fs1 r (sendsTo r (hist ++ [req])) := by
  obtain ⟨stripped0, hs0⟩ := Option.ne_none_iff_exists'.1 hdef
  cases hsf : sendFields req.1 req.2 with
  | none =>
    obtain ⟨message, hm⟩ := handle_no_send req.1 spool s fs req.2 stripped0 hres hs0 hsf hlist
    refine ⟨fs, message, hm, hres, hsd, fun r hr => ?_⟩
    rw [sendsTo_append, isSendTo_of_none r req hsf]
    simpa using hbox r hr
  | some parts =>
    obtain ⟨stripped, hs, hcmd, hcnt, hparts⟩ := sendFields_some req.1 req.2 parts hsf
    have hr0plain : plainName (parts.getD 2 []) = true := by
      simpa [plainReceiver, hsf] using hplain
    have hr0 : (getlines (cstr stripped)).getD 2 [] = parts.getD 2 [] := by rw [hparts]
    have hsends0 : sendsTo (parts.getD 2 []) (hist ++ [req]) =
        sendsTo (parts.getD 2 []) hist ++ [req] := by
      rw [sendsTo_append, isSendTo_of_some _ req parts hsf]
      simp
    have hother : ∀ r, r ≠ parts.getD 2 [] → sendsTo r (hist ++ [req]) = sendsTo r hist := by
      intro r hr
      rw [sendsTo_append, isSendTo_of_some _ req parts hsf]
      have : ¬ (parts.getD 2 [] = r) := fun h => hr h.symm
      rw [decide_eq_false this]
      simp
    have hb0 := hbox _ hr0plain
    by_cases hempty : sendsTo (parts.getD 2 []) hist = []
    · have hnone := hb0.1 hempty
      obtain ⟨fs1, hdisp, hmono, hdir1, hidx1, hframe⟩ :=
        dispatch_SEND_new_plain spool s fs _ (cstr stripped) hres hsd hr0plain hcmd hcnt hr0 hnone
      refine ⟨fs1, "OK".toList, by rw [handle_of_strip spool fs hs, hdisp],
        resolve_mono fs fs1 hmono spool s hres, hmono s hsd, fun r hr => ?_⟩
      by_cases hrr : r = parts.getD 2 []
      · subst hrr
        rw [hsends0, hempty]
        exact MailboxHolds_created s fs fs1 _ req hnone hdir1 hidx1 hframe
      · rw [hother r hrr]
        refine MailboxHolds_congr s fs fs1 r _ (fun q => ?_) (hbox r hr)
        exact hframe _ (path_ne_of_name_ne s r _ q [] hrr)
          (path_ne_of_name_ne s r _ q ["index.txt".toList] hrr)
    · obtain ⟨hdir, hidx, hnames, _⟩ := hb0.2 hempty
      have hlen : (sendsTo (parts.getD 2 []) hist).length ≤ 2147483647 := by
        have := hbound (parts.getD 2 [])
        rw [hsends0] at this
        simp only [List.length_append, List.length_singleton] at this
        omega
      have hpos : 1 ≤ (sendsTo (parts.getD 2 []) hist).length := by
        cases h : sendsTo (parts.getD 2 []) hist with
        | nil => exact absurd h hempty
        | cons x xs => simp
      have hfree : stat fs (s ++ [parts.getD 2 [],
          to_string ((((sendsTo (parts.getD 2 []) hist).length : Int) - 1) + 1) ++ ".txt".toList])
          = none := by
        by_contra hcon
        rcases hnames _ hcon with h | ⟨j, hj1, hj2, hj3⟩
        · exact msgName_ne_index _ h
        · have := msgName_injective _ _ (by unfold INT_MIN INT_MAX; omega)
            (by unfold INT_MIN INT_MAX; omega) hj3
          omega
      obtain ⟨fs1, hdisp, hmono, hmsg1, hidx1, hframe⟩ :=
        dispatch_SEND_old_plain spool s fs _ (cstr stripped)
          (((sendsTo (parts.getD 2 []) hist).length : Int) - 1) hres hsd hr0plain hcmd hcnt hr0
          hdir hidx (by unfold INT_MIN; omega) (by unfold INT_MAX; omega) hfree
      refine ⟨fs1, "OK".toList, by rw [handle_of_strip spool fs hs, hdisp],
        resolve_mono fs fs1 hmono spool s hres, hmono s hsd, fun r hr => ?_⟩
      by_cases hrr : r = parts.getD 2 []
      · subst hrr
        rw [hsends0]
        refine MailboxHolds_written s fs fs1 _ _ req hempty hlen hb0 hmono ?_ hidx1 hframe
        rw [hmsg1, messageOf_of_some req parts hsf, hparts]
      · rw [hother r hrr]
        refine MailboxHolds_congr s fs fs1 r _ (fun q => ?_) (hbox r hr)
        exact hframe _ (path_ne_of_name_ne s r _ q [_] hrr)
          (path_ne_of_name_ne s r _ q ["index.txt".toList] hrr)

/-- A SEND with 5 fields in a store without the spool root makes it and goes on as in the store
that holds it. -/
theorem handle_SEND_absent (below : Char) (spool : Str) (s : Path) (fs : FS) (recvd : Str)
    (parts : List Str) (hsf : sendFields below recvd = some parts)
    (hres : resolve fs spool = some s) (habs : stat fs s = none) :
    handle below spool fs recvd = handle below spool (put fs s Node.dir) recvd ∧
      resolve (put fs s Node.dir) spool = some s ∧ isDir (put fs s Node.dir) s = true ∧
      ∀ p, p ≠ s → stat (put fs s Node.dir) p = stat fs p := by
  obtain ⟨stripped, hs, hcmd, hcnt, _⟩ := sendFields_some below recvd parts hsf
  have hsne : s ≠ [] := ((stat_eq_none_iff fs s).1 habs).1
  have hres1 : resolve (put fs s Node.dir) spool = some s :=
    resolve_mono fs _ (fun p hp => isDir_put_dir fs s p hp) spool s hres
  have hdir1 : isDir (put fs s Node.dir) s = true := by
    unfold isDir; rw [stat_put_same fs s _ hsne]; rfl
  have hmade : ensureSpool fs spool = (put fs s Node.dir, true) := by
    unfold ensureSpool
    rw [fsExists_of_resolve fs spool s hres, habs]
    exact create_directories_free fs spool s hres habs
  have hmade1 : ensureSpool (put fs s Node.dir) spool = (put fs s Node.dir, true) :=
    ensureSpool_of_resolve _ spool s hres1 hdir1
  refine ⟨?_, hres1, hdir1, fun p hp => stat_put_other fs s p _ hp⟩
  rw [handle_of_strip spool fs hs, handle_of_strip spool _ hs,
    dispatch_SEND spool fs _ (cstr stripped) false hcmd hcnt hmade,
    dispatch_SEND spool _ _ (cstr stripped) false hcmd hcnt hmade1]

/-- One request keeps the state of every plain mailbox in step with the requests handled, also
while the spool root does not exist yet. -/
theorem step_inv_root (spool : Str) (s : Path) (fs : FS) (hist : List (Char × Str))
    (req : Char × Str)
    (hres : resolve fs spool = some s) (hsd : isDir fs s = true ∨ stat fs s = none)
    (hbox : ∀ r, plainName r = true → MailboxHolds s fs r (sendsTo r hist))
    (hdef : stripNewline req.1 req.2 ≠ none) (hplain : plainReceiver req = true)
    (hlist : shortListName req = true)
    (hbound : ∀ r, (sendsTo r (hist ++ [req])).length ≤ 2147483648) :
    ∃ fs1 message, handle req.1 spool fs req.2 = Outcome.reply fs1 message ∧
      resolve fs1 spool = some s ∧ (isDir fs1 s = true ∨ stat fs1 s = none) ∧
      ∀ r, plainName r = true → MailboxHolds s fs1 r (sendsTo r (hist ++ [req])) := by
  rcases hsd with hsd | habs
  · obtain ⟨fs1, message, h1, h2, h3, h4⟩ :=
      step_inv spool s fs hist req hres hsd hbox hdef hplain hlist hbound
    exact ⟨fs1, message, h1, h2, Or.inl h3, h4⟩
  · cases hsf : sendFields req.1 req.2 with
    | none =>
      obtain ⟨stripped0, hs0⟩ := Option.ne_none_iff_exists'.1 hdef
      obtain ⟨message, hm⟩ := handle_no_send req.1 spool s fs req.2 stripped0 hres hs0 hsf hlist
      refine ⟨fs, message, hm, hres, Or.inr habs, fun r hr => ?_⟩
      rw [sendsTo_append, isSendTo_of_none r req hsf]
      simpa using hbox r hr
    | some parts =>
      obtain ⟨hh, hres1, hdir1, hframe⟩ :=
        handle_SEND_absent req.1 spool s fs req.2 parts hsf hres habs
      have hbox1 : ∀ r, plainName r = true →
          MailboxHolds s (put fs s Node.dir) r (sendsTo r hist) := by
        intro r hr
        refine MailboxHolds_congr s fs _ r _ (fun q => hframe _ ?_) (hbox r hr)
        intro h
        have := congrArg List.length h
        simp at this
      obtain ⟨fs1, message, h1, h2, h3, h4⟩ :=
        step_inv spool s _ hist req hres1 hdir1 hbox1 hdef hplain hlist hbound
      exact ⟨fs1, message, by rw [hh]; exact h1, h2, Or.inl h3, h4⟩

/-- The invariant along a sequence of requests, from any state that satisfies it. -/
theorem serve_inv (spool : Str) (s : Path) (rest : List (Char × Str)) :
    ∀ (hist : List (Char × Str)) (fs : FS),
      resolve fs spool = some s → (isDir fs s = true ∨ stat fs s = none) →
      (∀ r, plainName r = true → MailboxHolds s fs r (sendsTo r hist)) →
      (∀ req ∈ rest, stripNewline req.1 req.2 ≠ none) →
      (∀ req ∈ rest, plainReceiver req = true) →
      (∀ req ∈ rest, shortListName req = true) →
      (∀ r, (sendsTo r (hist ++ rest)).length ≤ 2147483648) →
      ∃ fs1, serve spool fs rest = some fs1 ∧ resolve fs1 spool = some s ∧
        (isDir fs1 s = true ∨ stat fs1 s = none) ∧
        ∀ r, plainName r = true → MailboxHolds s fs1 r (sendsTo r (hist ++ rest)) := by
  induction rest with
  | nil =>
    intro hist fs hres hsd hbox _ _ _ _
    exact ⟨fs, rfl, hres, hsd, by simpa using hbox⟩
  | cons req rest ih =>
    intro hist fs hres hsd hbox hdef hplain hlist hbound
    have hbound1 : ∀ r, (sendsTo r (hist ++ [req])).length ≤ 2147483648 := by
      intro r
      refine le_trans ?_ (hbound r)
      have : hist ++ req :: rest = (hist ++ [req]) ++ rest := by simp
      rw [this]
      unfold sendsTo
      rw [List.filter_append (hist ++ [req]) rest]
      simp only [List.length_append]
      omega
    obtain ⟨fs1, message, hh, hres1, hsd1, hbox1⟩ := step_inv_root spool s fs hist req hres hsd hbox
      (hdef req (by simp)) (hplain req (by simp)) (hlist req (by simp)) hbound1
    have hrw : hist ++ req :: rest = (hist ++ [req]) ++ rest := by simp
    obtain ⟨fs2, hserve, hres2, hsd2, hbox2⟩ := ih (hist ++ [req]) fs1 hres1 hsd1 hbox1
      (fun q hq => hdef q (by simp [hq])) (fun q hq => hplain q (by simp [hq]))
      (fun q hq => hlist q (by simp [hq])) (by rw [← hrw]; exact hbound)
    refine ⟨fs2, ?_, hres2, hsd2, by rw [hrw]; exact hbox2⟩
    obtain ⟨below, recvd⟩ := req
    simp only [serve]
    simp only at hh
    rw [hh]
    exact hserve

/-- One connection whose requests are all received non-empty and none of which is `quit` leaves
the store that handling the requests one after the other leaves. -/
theorem clientCommunication_store (spool : Str) (reqs : List (Char × Str)) :
    ∀ (fs fs1 : FS), (∀ req ∈ reqs, req.2 ≠ [] ∧ goesOn req.1 req.2 = true) →
      serve spool fs reqs = some fs1 → (clientCommunication spool fs reqs).1 = some fs1 := by
  induction reqs with
  | nil =>
    intro fs fs1 _ h
    simpa [serve, clientCommunication] using h
  | cons req rest ih =>
    intro fs fs1 hall h
    obtain ⟨below, recvd⟩ := req
    have hreq := hall (below, recvd) (by simp)
    simp only [serve] at h
    simp only [clientCommunication, hreq.1, if_false]
    cases hh : handle below spool fs recvd with
    | reply fs2 message =>
      rw [hh] at h
      simp only [hreq.2, if_true]
      exact ih fs2 fs1 (fun q hq => hall q (by simp [hq])) h
    | terminate fs2 => rw [hh] at h; exact absurd h (by simp)
    | undefined => rw [hh] at h; exact absurd h (by simp)

/-- What the invariant of the code tells of the counter. -/
theorem MailboxCounts_of_holds (s : Path) (fs : FS) (r : Str) (sends : List (Char × Str))
    (h : MailboxHolds s fs r sends) : MailboxCounts s fs r sends :=
  ⟨h.1, fun hne => ⟨(h.2 hne).1, (h.2 hne).2.1, (h.2 hne).2.2.1⟩⟩

/-- C5 (amended): start from a store whose spool directory is empty or does not exist yet (the
first SEND makes it), and handle any finite sequence of requests, SEND, LIST, READ, DEL and
unknown commands in any mix, in which every SEND with 5 fields names a plain receiver (one
directory entry: not empty, no slash, not `.` or `..`, at most 255 bytes), every LIST with 2
fields names a mailbox path without a name of more than 255 bytes, no mailbox gets more than
2^31 SEND requests, and no request is the single line feed that underflows the buffer.  Then
every request is answered, and after every request, for every plain mailbox name M with `k` SEND
requests to it so far: for `k = 0` nothing exists at M; else M is a directory whose counter file
holds `k - 1` and which holds nothing but the counter file and message files with ids from 1 to
`k - 1`; `k` only grows.  Every SEND to M but the first writes, when it is handled, the message
file whose id is the number of SEND requests to M before it, with its own text, and sets the
counter to that id.  So the counter is the number of SEND requests that wrote a message file
into M and the highest id issued, it never decreases, and no id is issued twice. -/
theorem C5_counter_invariant (spool : Str) (s : Path) (fs0 : FS) (reqs : List (Char × Str))
    (hres : resolve fs0 spool = some s) (hsd : isDir fs0 s = true ∨ stat fs0 s = none)
    (hempty : ∀ r q, stat fs0 (s ++ r :: q) = none)
    (hdef : ∀ req ∈ reqs, stripNewline req.1 req.2 ≠ none)
    (hplain : ∀ req ∈ reqs, plainReceiver req = true)
    (hlist : ∀ req ∈ reqs, shortListName req = true)
    (hbound : ∀ r, (sendsTo r reqs).length ≤ 2147483648) :
    (∀ earlier later, reqs = earlier ++ later →
      ∃ fs, serve spool fs0 earlier = some fs ∧
        ∀ r, plainName r = true → MailboxCounts s fs r (sendsTo r earlier) ∧
          (sendsTo r earlier).length ≤ (sendsTo r reqs).length) ∧
    ∀ earlier req later r, reqs = earlier ++ req :: later → plainName r = true →
      isSendTo r req = true → sendsTo r earlier ≠ [] →
      ∃ fs, serve spool fs0 (earlier ++ [req]) = some fs ∧
        stat fs (s ++ [r, to_string ((sendsTo r earlier).length : Int) ++ ".txt".toList]) =
          some (Node.file (messageOf req)) ∧
        stat fs (s ++ [r, "index.txt".toList]) =
          some (Node.file (to_string ((sendsTo r earlier).length : Int) ++ ['\n'])) := by
  have hinit : ∀ r, plainName r = true → MailboxHolds s fs0 r (sendsTo r []) :=
    fun r _ => ⟨fun _ q => hempty r q, fun h => absurd rfl h⟩
  have hpart : ∀ earlier later, reqs = earlier ++ later →
      (∀ r, (sendsTo r earlier).length ≤ (sendsTo r reqs).length) ∧
      ∃ fs, serve spool fs0 earlier = some fs ∧
        ∀ r, plainName r = true → MailboxHolds s fs r (sendsTo r earlier) := by
    intro earlier later hsplit
    have hle : ∀ r, (sendsTo r earlier).length ≤ (sendsTo r reqs).length := by
      intro r
      rw [hsplit]
      unfold sendsTo
      rw [List.filter_append]
      simp only [List.length_append]
      omega
    obtain ⟨fs, h1, _, _, h4⟩ := serve_inv spool s earlier [] fs0 hres hsd hinit
      (fun q hq => hdef q (by rw [hsplit]; simp [hq]))
      (fun q hq => hplain q (by rw [hsplit]; simp [hq]))
      (fun q hq => hlist q (by rw [hsplit]; simp [hq]))
      (fun r => le_trans (by simp) (le_trans (hle r) (hbound r)))
    exact ⟨hle, fs, h1, by simpa using h4⟩
  constructor
  · intro earlier later hsplit
    obtain ⟨hle, fs, h1, h4⟩ := hpart earlier later hsplit
    exact ⟨fs, h1, fun r hr => ⟨MailboxCounts_of_holds s fs r _ (h4 r hr), hle r⟩⟩
  · intro earlier req later r hsplit hr hsend hne
    obtain ⟨_, fs, h1, h4⟩ := hpart (earlier ++ [req]) later (by rw [hsplit]; simp)
    have hbox := h4 r hr
    rw [sendsTo_append, if_pos hsend] at hbox
    obtain ⟨_, hidx, _, hmsg⟩ := hbox.2 (by simp)
    have hpos : 1 ≤ (sendsTo r earlier).length := by
      cases h : sendsTo r earlier with
      | nil => exact absurd h hne
      | cons x xs => simp
    refine ⟨fs, h1, hmsg _ req hpos (by simp), ?_⟩
    rw [hidx]
    simp

/-- Two SEND requests to `B`, a LIST, a DEL and a READ of the message, and a SEND to `D`, from a
store without the spool root. -/
theorem C5_counter_invariant_witness :
    ∃ fs, serve "spool".toList []
        [('x', "SEND\nA\nB\nSubj\nBody".toList), ('x', "SEND\nA\nB\nSubj2\nBody2".toList),
          ('x', "LIST\nB".toList), ('x', "DEL\nB\n1".toList), ('x', "READ\nB\n1".toList),
          ('x', "SEND\nC\nD\nSubj3\nBody3".toList)] = some fs ∧
      ∀ r, plainName r = true →
        MailboxCounts ["spool".toList] fs r
          (sendsTo r
        [('x', "SEND\nA\nB\nSubj\nBody".toList), ('x', "SEND\nA\nB\nSubj2\nBody2".toList),
          ('x', "LIST\nB".toList), ('x', "DEL\nB\n1".toList), ('x', "READ\nB\n1".toList),
          ('x', "SEND\nC\nD\nSubj3\nBody3".toList)]) :=
  match (C5_counter_invariant "spool".toList ["spool".toList] []
        [('x', "SEND\nA\nB\nSubj\nBody".toList), ('x', "SEND\nA\nB\nSubj2\nBody2".toList),
          ('x', "LIST\nB".toList), ('x', "DEL\nB\n1".toList), ('x', "READ\nB\n1".toList),
          ('x', "SEND\nC\nD\nSubj3\nBody3".toList)]
      (by decide) (Or.inr (by decide))
      (by
        intro r q
        rw [stat_eq_none_iff]
        exact ⟨by simp, fun e he => absurd he (by simp)⟩)
      (by decide) (by decide) (by decide)
      (fun r => le_trans (List.length_filter_le _ _) (by decide))).1
        [('x', "SEND\nA\nB\nSubj\nBody".toList), ('x', "SEND\nA\nB\nSubj2\nBody2".toList),
          ('x', "LIST\nB".toList), ('x', "DEL\nB\n1".toList), ('x', "READ\nB\n1".toList),
          ('x', "SEND\nC\nD\nSubj3\nBody3".toList)] [] (by simp) with
  | ⟨fs, h1, h2⟩ => ⟨fs, h1, fun r hr => (h2 r hr).1⟩

end TWMailer
